import Mathlib

/-!
# CloudMoor credential vault

A shallow embedding of `internal/vault` (the AES-GCM secret store, its key
providers and its audit events) together with the parts of the Go standard
library the store calls: `crypto/aes` (FIPS 197), the GCM mode of
`crypto/cipher` (NIST SP 800-38D), `io.ReadFull` over `crypto/rand` and
`sort.Strings`.

Conventions. A Go `[]byte` and a Go `string` are lists of byte values. A Go
function that returns `(value, error)` and may panic returns an `Outcome`. The
clock, the random source and the key provider are explicit inputs of every
store call; what a call hands to the audit hook is the `audit` list of its
result. The reader/writer lock has no counterpart: calls are sequential. The
key providers are state-passing functions; for the file-backed one the file
system is a map from path to content whose reads and writes may fail.
-/

namespace CloudMoor

/-- A Go byte slice. Each element stands for one byte (a value below 256). -/
abbrev Bytes := List Nat

/-- A Go string: its bytes (UTF-8 for text). Go compares strings byte-wise. -/
abbrev GoString := List Nat

/-- UTF-8 encoding of one code point. -/
def utf8 (c : Nat) : Bytes :=
  if c < 0x80 then [c]
  else if c < 0x800 then [0xc0 + c / 64, 0x80 + c % 64]
  else if c < 0x10000 then [0xe0 + c / 4096, 0x80 + c / 64 % 64, 0x80 + c % 64]
  else [0xf0 + c / 262144, 0x80 + c / 4096 % 64, 0x80 + c / 64 % 64, 0x80 + c % 64]

/-- The Go string written as the literal `s`. -/
def str (s : String) : GoString := s.data.flatMap fun c => utf8 c.toNat

/-- Big-endian value of a byte string. -/
def beNat (bs : Bytes) : Nat := bs.foldl (fun acc b => acc * 256 + b) 0

/-- Big-endian encoding of `x` on `n` bytes (the low `8 n` bits of `x`). -/
def beBytes : Nat → Nat → Bytes
  | 0, _ => []
  | n + 1, x => (x / 256 ^ n % 256) :: beBytes n x

/-- Byte-wise exclusive or, as long as the shorter operand (`subtle.XORBytes`). -/
def xorBytes (a b : Bytes) : Bytes := List.zipWith (· ^^^ ·) a b

/-! ## Errors and outcomes -/

/-- The package-level error variables of `vault.go`. -/
inductive Sentinel where
  | NotFound
  | KeyEmpty
  | ValueEmpty
  | Unhealthy
  | KeyProvider
  | Encryption
  | Decryption
deriving DecidableEq, Repr

/-- A Go `error`: its `Error()` text and the package-level error variable it
is or wraps, if any (what `errors.Is` finds by unwrapping). -/
structure GoError where
  msg : GoString
  sentinel : Option Sentinel
deriving DecidableEq, Repr

/-- Go `errors.Is(e, target)` for a package-level `target`. -/
def GoError.Is (e : GoError) (target : Sentinel) : Prop := e.sentinel = some target

instance (e : GoError) (target : Sentinel) : Decidable (e.Is target) := by
  unfold GoError.Is; infer_instance

def ErrNotFound : GoError := ⟨str "vault: secret not found", some .NotFound⟩
def ErrKeyEmpty : GoError := ⟨str "vault: key cannot be empty", some .KeyEmpty⟩
def ErrValueEmpty : GoError := ⟨str "vault: value cannot be empty", some .ValueEmpty⟩
def ErrUnhealthy : GoError := ⟨str "vault: health check failed", some .Unhealthy⟩
def ErrKeyProvider : GoError := ⟨str "vault: key provider error", some .KeyProvider⟩
def ErrEncryption : GoError := ⟨str "vault: encryption failed", some .Encryption⟩
def ErrDecryption : GoError := ⟨str "vault: decryption failed", some .Decryption⟩

namespace fmt

/-- Go `fmt.Sprintf("%v: %v", a, b)` on two errors. -/
def Sprintf_v_v (a b : GoError) : GoString := a.msg ++ str ": " ++ b.msg

/-- Go `fmt.Errorf("%w: %v", a, b)`: the text of `Sprintf_v_v`, wrapping `a` only. -/
def Errorf_w_v (a b : GoError) : GoError := ⟨Sprintf_v_v a b, a.sentinel⟩

/-- Go `fmt.Errorf(text)` without verbs: a fresh error that wraps nothing. -/
def Errorf (text : String) : GoError := ⟨str text, none⟩

/-- Go `fmt.Sprintf("%d", n)` for a length. -/
def Sprintf_d (n : Nat) : GoString := str (toString n)

end fmt

/-- How a Go call ends: `ok v` is `return v, nil`, `err e` is `return zero, e`,
`panic m` is a panic with message `m` leaving the function. -/
inductive Outcome (α : Type) where
  | ok (v : α)
  | err (e : GoError)
  | panic (m : GoString)
deriving DecidableEq, Repr

/-! ## `crypto/aes`: the AES block cipher (FIPS 197) -/

namespace aes

/-- The S-box of FIPS 197, figure 7: row = high nibble, column = low nibble. -/
def sbox : List (List Nat) :=
  [[0x63, 0x7c, 0x77, 0x7b, 0xf2, 0x6b, 0x6f, 0xc5, 0x30, 0x01, 0x67, 0x2b, 0xfe, 0xd7, 0xab, 0x76],
   [0xca, 0x82, 0xc9, 0x7d, 0xfa, 0x59, 0x47, 0xf0, 0xad, 0xd4, 0xa2, 0xaf, 0x9c, 0xa4, 0x72, 0xc0],
   [0xb7, 0xfd, 0x93, 0x26, 0x36, 0x3f, 0xf7, 0xcc, 0x34, 0xa5, 0xe5, 0xf1, 0x71, 0xd8, 0x31, 0x15],
   [0x04, 0xc7, 0x23, 0xc3, 0x18, 0x96, 0x05, 0x9a, 0x07, 0x12, 0x80, 0xe2, 0xeb, 0x27, 0xb2, 0x75],
   [0x09, 0x83, 0x2c, 0x1a, 0x1b, 0x6e, 0x5a, 0xa0, 0x52, 0x3b, 0xd6, 0xb3, 0x29, 0xe3, 0x2f, 0x84],
   [0x53, 0xd1, 0x00, 0xed, 0x20, 0xfc, 0xb1, 0x5b, 0x6a, 0xcb, 0xbe, 0x39, 0x4a, 0x4c, 0x58, 0xcf],
   [0xd0, 0xef, 0xaa, 0xfb, 0x43, 0x4d, 0x33, 0x85, 0x45, 0xf9, 0x02, 0x7f, 0x50, 0x3c, 0x9f, 0xa8],
   [0x51, 0xa3, 0x40, 0x8f, 0x92, 0x9d, 0x38, 0xf5, 0xbc, 0xb6, 0xda, 0x21, 0x10, 0xff, 0xf3, 0xd2],
   [0xcd, 0x0c, 0x13, 0xec, 0x5f, 0x97, 0x44, 0x17, 0xc4, 0xa7, 0x7e, 0x3d, 0x64, 0x5d, 0x19, 0x73],
   [0x60, 0x81, 0x4f, 0xdc, 0x22, 0x2a, 0x90, 0x88, 0x46, 0xee, 0xb8, 0x14, 0xde, 0x5e, 0x0b, 0xdb],
   [0xe0, 0x32, 0x3a, 0x0a, 0x49, 0x06, 0x24, 0x5c, 0xc2, 0xd3, 0xac, 0x62, 0x91, 0x95, 0xe4, 0x79],
   [0xe7, 0xc8, 0x37, 0x6d, 0x8d, 0xd5, 0x4e, 0xa9, 0x6c, 0x56, 0xf4, 0xea, 0x65, 0x7a, 0xae, 0x08],
   [0xba, 0x78, 0x25, 0x2e, 0x1c, 0xa6, 0xb4, 0xc6, 0xe8, 0xdd, 0x74, 0x1f, 0x4b, 0xbd, 0x8b, 0x8a],
   [0x70, 0x3e, 0xb5, 0x66, 0x48, 0x03, 0xf6, 0x0e, 0x61, 0x35, 0x57, 0xb9, 0x86, 0xc1, 0x1d, 0x9e],
   [0xe1, 0xf8, 0x98, 0x11, 0x69, 0xd9, 0x8e, 0x94, 0x9b, 0x1e, 0x87, 0xe9, 0xce, 0x55, 0x28, 0xdf],
   [0x8c, 0xa1, 0x89, 0x0d, 0xbf, 0xe6, 0x42, 0x68, 0x41, 0x99, 0x2d, 0x0f, 0xb0, 0x54, 0xbb, 0x16]]

/-- `SubBytes` on one byte. -/
def subByte (b : Nat) : Nat := (sbox.getD (b / 16) []).getD (b % 16) 0

/-- Multiplication by `x` in GF(2^8) modulo `x^8 + x^4 + x^3 + x + 1`. -/
def xtime (b : Nat) : Nat := if b < 128 then 2 * b else (2 * b) ^^^ 0x11b

def subBytes (s : Bytes) : Bytes := s.map subByte

/-- `ShiftRows`. The state is stored column by column: byte `r + 4 c` is row
`r` of column `c`; row `r` moves `r` columns to the left. -/
def shiftRows : Bytes → Bytes
  | [s0, s1, s2, s3, s4, s5, s6, s7, s8, s9, s10, s11, s12, s13, s14, s15] =>
    [s0, s5, s10, s15, s4, s9, s14, s3, s8, s13, s2, s7, s12, s1, s6, s11]
  | s => s

/-- `MixColumns`: every column is multiplied by the circulant matrix with
first row `2 3 1 1`. -/
def mixColumns : Bytes → Bytes
  | a0 :: a1 :: a2 :: a3 :: rest =>
    (xtime a0 ^^^ (xtime a1 ^^^ a1) ^^^ a2 ^^^ a3) ::
    (a0 ^^^ xtime a1 ^^^ (xtime a2 ^^^ a2) ^^^ a3) ::
    (a0 ^^^ a1 ^^^ xtime a2 ^^^ (xtime a3 ^^^ a3)) ::
    ((xtime a0 ^^^ a0) ^^^ a1 ^^^ a2 ^^^ xtime a3) :: mixColumns rest
  | s => s

def addRoundKey (s k : Bytes) : Bytes := xorBytes s k

/-- `SubWord` on a four-byte word. -/
def subWord (w : Bytes) : Bytes := w.map subByte

/-- `RotWord` on a four-byte word. -/
def rotWord : Bytes → Bytes
  | b0 :: rest => rest ++ [b0]
  | [] => []

/-- First byte of the round constant `Rcon[j]`: `x^(j-1)` in GF(2^8). -/
def rcon : Nat → Nat
  | 0 => 0
  | 1 => 1
  | n + 1 => xtime (rcon n)

/-- The key bytes cut into four-byte words. -/
def words : Bytes → List Bytes
  | b0 :: b1 :: b2 :: b3 :: rest => [b0, b1, b2, b3] :: words rest
  | _ => []

/-- Word `w[i]` of the key schedule, `i = w.length`, from the words before it. -/
def nextWord (nk : Nat) (w : List Bytes) : Bytes :=
  let i := w.length
  let temp := w.getD (i - 1) []
  let temp :=
    if i % nk = 0 then xorBytes (subWord (rotWord temp)) [rcon (i / nk), 0, 0, 0]
    else if 6 < nk ∧ i % nk = 4 then subWord temp
    else temp
  xorBytes (w.getD (i - nk) []) temp

def expandWords (nk : Nat) : Nat → List Bytes → List Bytes
  | 0, w => w
  | n + 1, w => expandWords nk n (w ++ [nextWord nk w])

/-- Four words per round key. -/
def roundKeys : List Bytes → List Bytes
  | w0 :: w1 :: w2 :: w3 :: rest => (w0 ++ w1 ++ w2 ++ w3) :: roundKeys rest
  | _ => []

/-- `KeyExpansion`: `nk` key words give `nk + 7` round keys (11, 13 or 15). -/
def keyExpansion (key : Bytes) : List Bytes :=
  let nk := key.length / 4
  roundKeys (expandWords nk (4 * (nk + 7) - nk) (words key))

/-- The rounds after the initial `AddRoundKey`; the last has no `MixColumns`. -/
def rounds : List Bytes → Bytes → Bytes
  | [], s => s
  | [k], s => addRoundKey (shiftRows (subBytes s)) k
  | k :: ks, s => rounds ks (addRoundKey (mixColumns (shiftRows (subBytes s))) k)

/-- `Cipher` of FIPS 197 on one 16-byte block, with the given round keys. -/
def encryptBlock (rks : List Bytes) (blk : Bytes) : Bytes :=
  match rks with
  | [] => blk
  | k0 :: ks => rounds ks (addRoundKey blk k0)

/-- A `cipher.Block` made by `aes.NewCipher`: the expanded key. -/
structure Block where
  roundKeys : List Bytes
deriving DecidableEq, Repr

/-- `Block.Encrypt` on one block. -/
def Block.Encrypt (c : Block) (src : Bytes) : Bytes := encryptBlock c.roundKeys src

/-- Go `aes.KeySizeError(k).Error()`. -/
def KeySizeError (k : Nat) : GoError := ⟨str "crypto/aes: invalid key size " ++ fmt.Sprintf_d k, none⟩

/-- Go `aes.NewCipher`: keys of 16, 24 or 32 bytes select AES-128, AES-192 or
AES-256; any other length is a `KeySizeError`. -/
def NewCipher (key : Bytes) : Except GoError Block :=
  if key.length = 16 ∨ key.length = 24 ∨ key.length = 32 then
    .ok ⟨keyExpansion key⟩
  else
    .error (KeySizeError key.length)

end aes

/-! ## `crypto/cipher`: Galois/Counter Mode (NIST SP 800-38D) -/

namespace cipher

/-- The reduction constant `R = 11100001 ‖ 0^120`. -/
def gcmR : Nat := 0xe1 * 2 ^ 120

/-- Multiplication in GF(2^128) (SP 800-38D, algorithm 1). A block is the
big-endian value of its 16 bytes, so its leftmost bit is the `2^127` bit; the
first argument counts the bits of `x` still to be processed. -/
def gmulLoop : Nat → Nat → Nat → Nat → Nat
  | 0, _, z, _ => z
  | n + 1, x, z, v =>
    gmulLoop n x (if x.testBit n then z ^^^ v else z)
      (if v % 2 = 0 then v / 2 else (v / 2) ^^^ gcmR)

def gmul (x y : Nat) : Nat := gmulLoop 128 x 0 y

/-- The 16-byte blocks of `bs`, the last one padded with zero bytes on the right;
the first argument is the number of blocks. -/
def ghashBlocks : Nat → Bytes → List Nat
  | 0, _ => []
  | n + 1, bs =>
    beNat (bs.take 16 ++ List.replicate (16 - (bs.take 16).length) 0) ::
      ghashBlocks n (bs.drop 16)

/-- `GHASH` with hash subkey `h` (SP 800-38D, algorithm 2). -/
def ghash (h : Nat) (blocks : List Nat) : Nat :=
  blocks.foldl (fun y x => gmul (y ^^^ x) h) 0

/-- The AEAD made by `cipher.NewGCM`: standard nonce size 12, tag size 16. -/
structure GCM where
  cipher : aes.Block
deriving DecidableEq, Repr

/-- Go `cipher.NewGCM`. It fails only for a block size other than 16, which an
AES block never has. -/
def NewGCM (block : aes.Block) : Except GoError GCM := .ok ⟨block⟩

def GCM.NonceSize (_ : GCM) : Nat := 12

def GCM.Overhead (_ : GCM) : Nat := 16

/-- Largest plaintext `Seal` accepts: `((1 << 32) - 2)` blocks of 16 bytes. -/
def gcmMaxPlaintext : Nat := (2 ^ 32 - 2) * 16

/-- Go `errOpen`. -/
def errOpen : GoError := ⟨str "cipher: message authentication failed", none⟩

/-- The counter block for a 12-byte nonce: the nonce followed by a 32-bit
big-endian counter. -/
def counterBlock (nonce : Bytes) (ctr : Nat) : Bytes := nonce ++ beBytes 4 ctr

/-- The key stream of `n` blocks starting at counter `ctr`; the counter wraps
modulo `2^32` (`gcmInc32`). -/
def GCM.keystream (g : GCM) (nonce : Bytes) : Nat → Nat → Bytes
  | 0, _ => []
  | n + 1, ctr =>
    g.cipher.Encrypt (counterBlock nonce ctr) ++ g.keystream nonce n ((ctr + 1) % 2 ^ 32)

/-- Go `counterCrypt`: counter mode from counter 2 (counter 1 masks the tag). -/
def GCM.counterCrypt (g : GCM) (nonce src : Bytes) : Bytes :=
  xorBytes src (g.keystream nonce ((src.length + 15) / 16) 2)

/-- Go `gcm.auth`: the tag of `ciphertext` and `additionalData` under `nonce`:
`GHASH` of the padded data and their bit lengths, masked with the encryption
of counter block 1. -/
def GCM.auth (g : GCM) (nonce ciphertext additionalData : Bytes) : Bytes :=
  let h := beNat (g.cipher.Encrypt (List.replicate 16 0))
  let lens := additionalData.length * 8 % 2 ^ 64 * 2 ^ 64 + ciphertext.length * 8 % 2 ^ 64
  let s := ghash h (ghashBlocks ((additionalData.length + 15) / 16) additionalData ++
    ghashBlocks ((ciphertext.length + 15) / 16) ciphertext ++ [lens])
  xorBytes (beBytes 16 s) (g.cipher.Encrypt (counterBlock nonce 1))

/-- Go `gcm.Seal(dst, nonce, plaintext, data)`: appends ciphertext and tag to
`dst`; panics on a nonce of the wrong length and on an oversized plaintext. -/
def GCM.Seal (g : GCM) (dst nonce plaintext data : Bytes) : Outcome Bytes :=
  if nonce.length ≠ g.NonceSize then
    .panic (str "crypto/cipher: incorrect nonce length given to GCM")
  else if plaintext.length > gcmMaxPlaintext then
    .panic (str "crypto/cipher: message too large for GCM")
  else
    let ct := g.counterCrypt nonce plaintext
    .ok (dst ++ ct ++ g.auth nonce ct data)

/-- Go `gcm.Open(dst, nonce, ciphertext, data)`: checks the trailing 16-byte tag
and, when it matches, appends the plaintext to `dst`. -/
def GCM.Open (g : GCM) (dst nonce ciphertext data : Bytes) : Outcome Bytes :=
  if nonce.length ≠ g.NonceSize then
    .panic (str "crypto/cipher: incorrect nonce length given to GCM")
  else if ciphertext.length < 16 then
    .err errOpen
  else if ciphertext.length > gcmMaxPlaintext + 16 then
    .err errOpen
  else
    let tag := ciphertext.drop (ciphertext.length - 16)
    let ct := ciphertext.take (ciphertext.length - 16)
    if g.auth nonce ct data ≠ tag then .err errOpen
    else .ok (dst ++ g.counterCrypt nonce ct)

end cipher

/-! ## `crypto/rand` and `io.ReadFull` -/

/-- What `rand.Reader` does during one call: the bytes it delivers, and the
error it reports once they are used up. -/
structure Reader where
  data : Bytes
  err : GoError
deriving DecidableEq, Repr

namespace io

/-- Go `io.ReadFull(r, buf)` with `len(buf) = n`: the `n` bytes read, or the
reader's error when it cannot fill the buffer. -/
def ReadFull (r : Reader) (n : Nat) : Except GoError Bytes :=
  if n ≤ r.data.length then .ok (r.data.take n) else .error r.err

end io

/-! ## `sort.Strings` -/

namespace sort

/-- Go `sort.Strings`: ascending byte-wise order. -/
def Strings (x : List GoString) : List GoString := x.insertionSort (· ≤ ·)

end sort

/-! ## `internal/vault` -/

/-- A reading of `time.Now()`. -/
abbrev Time := Nat

/-- What a `KeyProvider` answers during one store call: to `GetKey`, to
`HealthCheck`, and (`later`) what it would answer to further `GetKey` calls,
which no store operation makes. -/
structure KeyProvider where
  GetKey : Except GoError Bytes
  HealthCheck : Option GoError
  later : List (Except GoError Bytes) := []

/-- Go `AuditEvent`; a `nil` metadata map is the empty list. -/
structure AuditEvent where
  Timestamp : Time
  Operation : GoString
  Key : GoString
  Success : Bool
  Error : GoString
  Metadata : List (GoString × GoString)
deriving DecidableEq, Repr

/-- Go `aesgcmStore`: the map from secret name to encrypted blob. The key
provider is part of the environment of each call, the audit hook receives the
`audit` list of each result. -/
structure aesgcmStore where
  secrets : AList (fun _ : GoString => Bytes)

/-- The environment of one store call. -/
structure Env where
  now : Time
  keyProvider : KeyProvider
  rand : Reader

/-- The effect of one store call: the store afterwards, how the call ended, and
the events passed to the audit hook, in order. -/
structure Result (α : Type) where
  store : aesgcmStore
  outcome : Outcome α
  audit : List AuditEvent

/-- Function exit: the deferred closure hands the final `event` to the audit
hook, also when the function leaves by a panic. -/
def Result.exit {α : Type} (s : aesgcmStore) (o : Outcome α) (event : AuditEvent) : Result α :=
  ⟨s, o, [event]⟩

/-- Go `NewAESGCMStore`: an empty secret map. -/
def NewAESGCMStore : aesgcmStore := ⟨∅⟩

/-- Go `aesgcmStore.encrypt`: `nonce ‖ ciphertext ‖ tag` with a fresh nonce. -/
def aesgcmStore.encrypt (rand : Reader) (masterKey plaintext : Bytes) : Outcome Bytes :=
  match aes.NewCipher masterKey with
  | .error e => .err e
  | .ok block =>
    match cipher.NewGCM block with
    | .error e => .err e
    | .ok gcm =>
      match io.ReadFull rand gcm.NonceSize with
      | .error e => .err e
      | .ok nonce => gcm.Seal nonce nonce plaintext []

/-- Go `aesgcmStore.decrypt`. -/
def aesgcmStore.decrypt (masterKey ciphertext : Bytes) : Outcome Bytes :=
  match aes.NewCipher masterKey with
  | .error e => .err e
  | .ok block =>
    match cipher.NewGCM block with
    | .error e => .err e
    | .ok gcm =>
      let nonceSize := gcm.NonceSize
      if ciphertext.length < nonceSize then
        .err (fmt.Errorf "ciphertext too short")
      else
        gcm.Open [] (ciphertext.take nonceSize) (ciphertext.drop nonceSize) []

/-- Go `aesgcmStore.Put`. -/
def aesgcmStore.Put (s : aesgcmStore) (env : Env) (key : GoString) (value : Bytes) :
    Result Unit :=
  let event : AuditEvent := ⟨env.now, str "put", key, false, [], []⟩
  if key = [] then
    .exit s (.err ErrKeyEmpty) { event with Success := false, Error := ErrKeyEmpty.msg }
  else if value.length = 0 then
    .exit s (.err ErrValueEmpty) { event with Success := false, Error := ErrValueEmpty.msg }
  else
    match env.keyProvider.GetKey with
    | .error err =>
      .exit s (.err (fmt.Errorf_w_v ErrKeyProvider err))
        { event with Success := false, Error := fmt.Sprintf_v_v ErrKeyProvider err }
    | .ok masterKey =>
      match aesgcmStore.encrypt env.rand masterKey value with
      | .err err =>
        .exit s (.err (fmt.Errorf_w_v ErrEncryption err))
          { event with Success := false, Error := fmt.Sprintf_v_v ErrEncryption err }
      | .panic m => .exit s (.panic m) event
      | .ok encrypted =>
        .exit { s with secrets := s.secrets.insert key encrypted } (.ok ())
          { event with Success := true,
                       Metadata := [(str "size", fmt.Sprintf_d value.length)] }

/-- Go `aesgcmStore.Get`. -/
def aesgcmStore.Get (s : aesgcmStore) (env : Env) (key : GoString) : Result Bytes :=
  let event : AuditEvent := ⟨env.now, str "get", key, false, [], []⟩
  if key = [] then
    .exit s (.err ErrKeyEmpty) { event with Success := false, Error := ErrKeyEmpty.msg }
  else
    match s.secrets.lookup key with
    | none =>
      .exit s (.err ErrNotFound) { event with Success := false, Error := ErrNotFound.msg }
    | some encrypted =>
      match env.keyProvider.GetKey with
      | .error err =>
        .exit s (.err (fmt.Errorf_w_v ErrKeyProvider err))
          { event with Success := false, Error := fmt.Sprintf_v_v ErrKeyProvider err }
      | .ok masterKey =>
        match aesgcmStore.decrypt masterKey encrypted with
        | .err err =>
          .exit s (.err (fmt.Errorf_w_v ErrDecryption err))
            { event with Success := false, Error := fmt.Sprintf_v_v ErrDecryption err }
        | .panic m => .exit s (.panic m) event
        | .ok plaintext =>
          .exit s (.ok plaintext)
            { event with Success := true,
                         Metadata := [(str "size", fmt.Sprintf_d plaintext.length)] }

/-- Go `aesgcmStore.Delete`. -/
def aesgcmStore.Delete (s : aesgcmStore) (env : Env) (key : GoString) : Result Unit :=
  let event : AuditEvent := ⟨env.now, str "delete", key, false, [], []⟩
  if key = [] then
    .exit s (.err ErrKeyEmpty) { event with Success := false, Error := ErrKeyEmpty.msg }
  else
    match s.secrets.lookup key with
    | none =>
      .exit s (.err ErrNotFound) { event with Success := false, Error := ErrNotFound.msg }
    | some _ =>
      .exit { s with secrets := s.secrets.erase key } (.ok ()) { event with Success := true }

/-- Go `aesgcmStore.List`: the keys of the map, in whatever order the map
yields them, then sorted. -/
def aesgcmStore.List (s : aesgcmStore) (env : Env) : Result (List GoString) :=
  let event : AuditEvent := ⟨env.now, str "list", [], false, [], []⟩
  let keys := sort.Strings s.secrets.keys
  .exit s (.ok keys)
    { event with Success := true, Metadata := [(str "count", fmt.Sprintf_d keys.length)] }

/-- Go `aesgcmStore.HealthCheck`. -/
def aesgcmStore.HealthCheck (s : aesgcmStore) (env : Env) : Result Unit :=
  let event : AuditEvent := ⟨env.now, str "health", [], false, [], []⟩
  match env.keyProvider.HealthCheck with
  | some err =>
    .exit s (.err (fmt.Errorf_w_v ErrUnhealthy err))
      { event with Success := false, Error := fmt.Sprintf_v_v ErrUnhealthy err }
  | none =>
    match env.keyProvider.GetKey with
    | .error err =>
      .exit s (.err (fmt.Errorf_w_v ErrUnhealthy err))
        { event with Success := false, Error := fmt.Sprintf_v_v ErrUnhealthy err }
    | .ok _ => .exit s (.ok ()) { event with Success := true }

/-! ## Vocabulary of the statements -/

/-- The block cipher under a GCM maps 16-byte blocks to 16-byte blocks. -/
def cipher.GCM.BlockSized (g : cipher.GCM) : Prop :=
  ∀ src : Bytes, src.length = 16 → (g.cipher.Encrypt src).length = 16

/-- The key lengths `aes.NewCipher` accepts. -/
def aes.KeyLength (key : Bytes) : Prop := key.length = 16 ∨ key.length = 24 ∨ key.length = 32

instance (key : Bytes) : Decidable (aes.KeyLength key) := by
  unfold aes.KeyLength; infer_instance

/-- The AEAD that `encrypt` and `decrypt` build from a master key. -/
def gcmOf (key : Bytes) : cipher.GCM := ⟨⟨aes.keyExpansion key⟩⟩

/-- The blob `encrypt` makes from the nonce it drew. -/
def sealed (key nonce plaintext : Bytes) : Bytes :=
  nonce ++ (gcmOf key).counterCrypt nonce plaintext ++
    (gcmOf key).auth nonce ((gcmOf key).counterCrypt nonce plaintext) []

/-! ## Concrete inputs used by the examples -/

/-- Go `io.ErrUnexpectedEOF`. -/
def io.ErrUnexpectedEOF : GoError := ⟨str "unexpected EOF", none⟩

/-- A provider holding `key`, as `InMemoryKeyProvider` answers. -/
def holding (key : Bytes) : KeyProvider := { GetKey := .ok key, HealthCheck := none }

/-- The `failingKeyProvider` of `vault_test.go` with `shouldFail` set. -/
def failingKeyProvider : KeyProvider :=
  { GetKey := .error ⟨str "simulated key provider failure", none⟩,
    HealthCheck := some ⟨str "simulated health check failure", none⟩ }

/-- The all-zero 32-byte master key. -/
def zeroKey : Bytes := List.replicate 32 0

/-- The master key with bytes 0, 1, …, 31. -/
def countingKey : Bytes := List.range 32

/-- A call environment: clock reading 1700000000, the all-zero master key, and
a random source that delivers twelve zero bytes. -/
def zeroEnv : Env := ⟨1700000000, holding zeroKey, ⟨List.replicate 12 0, io.ErrUnexpectedEOF⟩⟩

/-- The environment `zeroEnv` with a provider that fails. -/
def failingEnv : Env := ⟨1700000000, failingKeyProvider, ⟨List.replicate 12 0, io.ErrUnexpectedEOF⟩⟩

/-- A value one byte longer than `Seal` accepts. -/
def oversized : Bytes := List.replicate (cipher.gcmMaxPlaintext + 1) 0

/-! ## Sequences of calls -/

/-- One call of the `Store` interface. -/
inductive Call where
  | Put (key : GoString) (value : Bytes)
  | Get (key : GoString)
  | Delete (key : GoString)
  | List
  | HealthCheck
deriving DecidableEq, Repr

/-- The `Operation` text the audit event of a call carries. -/
def Call.operation : Call → GoString
  | .Put _ _ => str "put"
  | .Get _ => str "get"
  | .Delete _ => str "delete"
  | .List => str "list"
  | .HealthCheck => str "health"

/-- An outcome with the returned value dropped. -/
def Outcome.void {α : Type} : Outcome α → Outcome Unit
  | .ok _ => .ok ()
  | .err e => .err e
  | .panic m => .panic m

/-- A result with the returned value dropped. -/
def Result.void {α : Type} (r : Result α) : Result Unit := ⟨r.store, r.outcome.void, r.audit⟩

/-- The call `c` on store `s` in environment `env`. -/
def Call.apply (c : Call) (s : aesgcmStore) (env : Env) : Result Unit :=
  match c with
  | .Put key value => s.Put env key value
  | .Get key => (s.Get env key).void
  | .Delete key => s.Delete env key
  | .List => (s.List env).void
  | .HealthCheck => s.HealthCheck env

/-- What a sequence of calls leaves behind: the store, each call with how it
ended, and the audit log. -/
structure Run where
  store : aesgcmStore
  trace : List (Call × Outcome Unit)
  audit : List AuditEvent

/-- The calls run one after the other from `s`, each in its own environment. A
caller that recovers from a panic goes on with the next call. -/
def run : aesgcmStore → List (Env × Call) → Run
  | s, [] => ⟨s, [], []⟩
  | s, (env, c) :: rest =>
    let r := c.apply s env
    let tail := run r.store rest
    ⟨tail.store, (c, r.outcome) :: tail.trace, r.audit ++ tail.audit⟩

/-- The step is a `Put` of `name` that returned no error. -/
def successfulPut (name : GoString) : Call × Outcome Unit → Bool
  | (.Put key _, .ok _) => key = name
  | _ => false

/-- The step is a `Delete` of `name` that returned no error. -/
def successfulDelete (name : GoString) : Call × Outcome Unit → Bool
  | (.Delete key, .ok _) => key = name
  | _ => false

/-- In the words of the specification: `name` has had a successful `Put` that
no successful `Delete` of `name` follows. -/
def putNotDeleted (name : GoString) : List (Call × Outcome Unit) → Bool
  | [] => false
  | step :: rest =>
    (successfulPut name step && !rest.any (successfulDelete name)) || putNotDeleted name rest

/-- The three `Put` calls of `TestAESGCMStore_List`, each in `zeroEnv`. -/
def fruitPuts : List (Env × Call) :=
  [(zeroEnv, .Put (str "zebra") (str "z")), (zeroEnv, .Put (str "apple") (str "a")),
   (zeroEnv, .Put (str "mango") (str "m"))]

/-- The environment `zeroEnv` after a rotation to `countingKey`. -/
def countingEnv : Env :=
  ⟨1700000001, holding countingKey, ⟨List.replicate 12 0, io.ErrUnexpectedEOF⟩⟩

/-- A 16-byte value whose blob under `zeroKey` and the all-zero nonce carries a
tag that is also valid under `countingKey`. -/
def collidingValue : Bytes :=
  [21, 117, 78, 8, 146, 246, 128, 204, 53, 132, 22, 58, 39, 220, 112, 143]

/-! ## Key providers -/

namespace fmt

/-- Go `fmt.Errorf(text + "%w", err)`: `text` followed by the text of `err`,
wrapping `err`. -/
def Errorf_w (text : String) (err : GoError) : GoError := ⟨str text ++ err.msg, err.sentinel⟩

/-- Go `fmt.Errorf(text + "%d", n)`: a fresh error that wraps nothing. -/
def Errorf_d (text : String) (n : Nat) : GoError := ⟨str text ++ Sprintf_d n, none⟩

end fmt

/-- Go `InMemoryKeyProvider`: the key it holds. -/
structure InMemoryKeyProvider where
  key : Bytes
deriving DecidableEq, Repr

/-- Go `NewInMemoryKeyProvider`: a provider with 32 bytes read from the random
source. -/
def NewInMemoryKeyProvider (rand : Reader) : Except GoError InMemoryKeyProvider :=
  match io.ReadFull rand 32 with
  | .error err => .error (fmt.Errorf_w "failed to generate key: " err)
  | .ok key => .ok ⟨key⟩

/-- Go `NewInMemoryKeyProviderWithKey`. -/
def NewInMemoryKeyProviderWithKey (key : Bytes) : Except GoError InMemoryKeyProvider :=
  if key.length ≠ 32 then
    .error (fmt.Errorf_d "key must be 32 bytes for AES-256, got " key.length)
  else
    .ok ⟨key⟩

/-- Go `InMemoryKeyProvider.GetKey`. -/
def InMemoryKeyProvider.GetKey (p : InMemoryKeyProvider) : Except GoError Bytes := .ok p.key

/-- Go `InMemoryKeyProvider.RotateKey`: the provider afterwards, and the
returned `(oldKey, newKey)` or error. -/
def InMemoryKeyProvider.RotateKey (p : InMemoryKeyProvider) (rand : Reader) :
    InMemoryKeyProvider × Except GoError (Bytes × Bytes) :=
  let oldKey := p.key
  match io.ReadFull rand 32 with
  | .error err => (p, .error (fmt.Errorf_w "failed to generate new key: " err))
  | .ok newKey => (⟨newKey⟩, .ok (oldKey, newKey))

/-- Go `InMemoryKeyProvider.HealthCheck`. -/
def InMemoryKeyProvider.HealthCheck (p : InMemoryKeyProvider) : Option GoError :=
  if p.key.length ≠ 32 then some (fmt.Errorf_d "invalid key size: " p.key.length) else none

/-- The provider after one `RotateKey` call per random source of the list, in
order, whether the calls succeed or fail. -/
def InMemoryKeyProvider.rotations (p : InMemoryKeyProvider) : List Reader → InMemoryKeyProvider
  | [] => p
  | rand :: rest => InMemoryKeyProvider.rotations (p.RotateKey rand).1 rest

/-- The file system: the content of each path that names a file, the paths
`os.ReadFile` cannot read with the error it reports, and the paths
`os.WriteFile` fails on, with the error it reports and what the failed write
leaves at the path. -/
structure FileSystem where
  files : GoString → Option Bytes
  readErr : GoString → Option GoError
  writeErr : GoString → Option (GoError × Option Bytes)

/-- The file system with the content of one path replaced. -/
def FileSystem.put (fs : FileSystem) (name : GoString) (content : Option Bytes) : FileSystem :=
  { fs with files := Function.update fs.files name content }

namespace os

/-- The error of opening a path that names no file. -/
def notExist (name : GoString) : GoError :=
  ⟨str "open " ++ name ++ str ": no such file or directory", none⟩

/-- Go `os.ReadFile`. -/
def ReadFile (fs : FileSystem) (name : GoString) : Except GoError Bytes :=
  match fs.readErr name with
  | some err => .error err
  | none =>
    match fs.files name with
    | none => .error (notExist name)
    | some data => .ok data

/-- Go `os.WriteFile`: the file system afterwards and the error, if any. A
write touches no path but its own. -/
def WriteFile (fs : FileSystem) (name : GoString) (data : Bytes) :
    FileSystem × Option GoError :=
  match fs.writeErr name with
  | some (err, residue) => (fs.put name residue, some err)
  | none => (fs.put name (some data), none)

end os

/-- Go `FileKeyProvider`. -/
structure FileKeyProvider where
  keyPath : GoString
deriving DecidableEq, Repr

/-- Go `FileKeyProvider.GetKey`. -/
def FileKeyProvider.GetKey (p : FileKeyProvider) (fs : FileSystem) : Except GoError Bytes :=
  match os.ReadFile fs p.keyPath with
  | .error err => .error (fmt.Errorf_w "failed to read key file: " err)
  | .ok key =>
    if key.length ≠ 32 then
      .error (fmt.Errorf_d "invalid key size: expected 32 bytes, got " key.length)
    else
      .ok key

/-- What a `FileKeyProvider.RotateKey` call does: the states the file system
goes through, the first being the one the call started in and the last the one
it leaves, and the returned `(oldKey, newKey)` or error. -/
structure Rotation where
  states : List FileSystem
  final : FileSystem
  out : Except GoError (Bytes × Bytes)

/-- The backup path of a key path. -/
def FileKeyProvider.backupPath (p : FileKeyProvider) : GoString := p.keyPath ++ str ".bak"

/-- Go `FileKeyProvider.RotateKey`. -/
def FileKeyProvider.RotateKey (p : FileKeyProvider) (fs : FileSystem) (rand : Reader) :
    Rotation :=
  match p.GetKey fs with
  | .error err => ⟨[fs], fs, .error (fmt.Errorf_w "failed to read old key: " err)⟩
  | .ok oldKey =>
    match io.ReadFull rand 32 with
    | .error err => ⟨[fs], fs, .error (fmt.Errorf_w "failed to generate new key: " err)⟩
    | .ok newKey =>
      let backupPath := p.keyPath ++ str ".bak"
      match os.WriteFile fs backupPath oldKey with
      | (fs1, some err) =>
        ⟨[fs, fs1], fs1, .error (fmt.Errorf_w "failed to backup old key: " err)⟩
      | (fs1, none) =>
        match os.WriteFile fs1 p.keyPath newKey with
        | (fs2, some err) =>
          ⟨[fs, fs1, fs2], fs2, .error (fmt.Errorf_w "failed to write new key: " err)⟩
        | (fs2, none) => ⟨[fs, fs1, fs2], fs2, .ok (oldKey, newKey)⟩

/-- Go `FileKeyProvider.HealthCheck`. -/
def FileKeyProvider.HealthCheck (p : FileKeyProvider) (fs : FileSystem) : Option GoError :=
  match p.GetKey fs with
  | .error err => some err
  | .ok key =>
    if key.length ≠ 32 then some (fmt.Errorf_d "invalid key size: " key.length) else none

/-- Go `FileKeyProvider.generateKey`. -/
def FileKeyProvider.generateKey (p : FileKeyProvider) (fs : FileSystem) (rand : Reader) :
    FileSystem × Option GoError :=
  match io.ReadFull rand 32 with
  | .error err => (fs, some err)
  | .ok key => os.WriteFile fs p.keyPath key

/-- A file system with one readable and writable file. -/
def FileSystem.single (name : GoString) (data : Bytes) : FileSystem :=
  ⟨fun n => if n = name then some data else none, fun _ => none, fun _ => none⟩

/-- A random source that delivers the 32 bytes 0, 1, …, 31. -/
def countingReader : Reader := ⟨List.range 32, io.ErrUnexpectedEOF⟩

/-- A random source that delivers 32 zero bytes. -/
def zeroReader : Reader := ⟨List.replicate 32 0, io.ErrUnexpectedEOF⟩

/-- A random source that fails at once. -/
def failingReader : Reader := ⟨[], io.ErrUnexpectedEOF⟩

/-- A provider that fails the first `GetKey` and would answer a second one. -/
def flakyKeyProvider : KeyProvider :=
  { GetKey := .error ⟨str "simulated key provider failure", none⟩,
    HealthCheck := none,
    later := [.ok zeroKey] }

/-- The environment `zeroEnv` with the provider `flakyKeyProvider`. -/
def flakyEnv : Env := ⟨1700000000, flakyKeyProvider, ⟨List.replicate 12 0, io.ErrUnexpectedEOF⟩⟩

/-- Among `calls` there is a `Put` of `name`, with a non-empty name and value,
whose provider returned a key under which `encrypt` made `blob` from the
value. -/
def EncryptedBy (calls : List (Env × Call)) (name : GoString) (blob : Bytes) : Prop :=
  ∃ env value key, (env, Call.Put name value) ∈ calls ∧ name ≠ [] ∧ value ≠ [] ∧
    env.keyProvider.GetKey = .ok key ∧ aesgcmStore.encrypt env.rand key value = .ok blob

/-- The store after `Put(name, v1)` and then `Put(name, v2)`. -/
def putTwice (s : aesgcmStore) (env1 env2 : Env) (name : GoString) (v1 v2 : Bytes) :
    aesgcmStore :=
  ((s.Put env1 name v1).store.Put env2 name v2).store

/-! ## `internal/connectors`: the provider registry -/

namespace connectors

/-- Go `ProviderMetadata`. -/
structure ProviderMetadata where
  ID : GoString
  DisplayName : GoString
  Description : GoString
  Version : GoString
  ConfigSchema : Bytes
deriving DecidableEq, Repr

/-- A value of the Go interface `Connector` that is not nil: what its
`Metadata()` returns, and `impl`, which tells apart the objects behind the
interface (their other methods play no part in the registry). -/
structure Connector where
  Metadata : ProviderMetadata
  impl : Nat
deriving DecidableEq, Repr

/-- The package variables `registry` and `registryOrder`. -/
structure Registry where
  registry : AList (fun _ : GoString => Connector)
  registryOrder : List GoString

/-- The registry of a program that has registered nothing. -/
def Registry.empty : Registry := ⟨∅, []⟩

/-- Go `RegisterProvider`: the registry afterwards and how the call ended.
`quote` is what the verb `%q` prints for a string (Go `strconv.Quote`). -/
def RegisterProvider (quote : GoString → GoString) (r : Registry) (c : Connector) :
    Registry × Outcome Unit :=
  let meta := c.Metadata
  if meta.ID = [] then
    (r, .panic (str "connectors: provider metadata must include non-empty ID"))
  else
    match r.registry.lookup meta.ID with
    | some _ =>
      (r, .panic (str "connectors: provider " ++ quote meta.ID ++ str " already registered"))
    | none =>
      (⟨r.registry.insert meta.ID c, r.registryOrder ++ [meta.ID]⟩, .ok ())

/-- Go `GetProvider`; `none` is the nil interface value. -/
def GetProvider (r : Registry) (id : GoString) : Option Connector := r.registry.lookup id

/-- Go `ListProviders`. -/
def ListProviders (r : Registry) : List ProviderMetadata :=
  r.registryOrder.filterMap fun id =>
    match r.registry.lookup id with
    | some c => some c.Metadata
    | none => none

/-- Go `ProviderIDs`. -/
def ProviderIDs (r : Registry) : List GoString := sort.Strings r.registryOrder

/-- One `RegisterProvider` call per connector of the list, in order, from the
registry `r`: the registry afterwards and how each call ended. -/
def registerAll (quote : GoString → GoString) : Registry → List Connector →
    Registry × List (Outcome Unit)
  | r, [] => (r, [])
  | r, c :: rest =>
    let step := RegisterProvider quote r c
    let tail := registerAll quote step.1 rest
    (tail.1, step.2 :: tail.2)

/-- The IDs of the order are in the registry: true of the empty registry and
kept by every registration. -/
def Registry.Listed (r : Registry) : Prop := ∀ id ∈ r.registryOrder, id ∈ r.registry

/-- The `fakeConnector` of `registry_test.go` with the given ID, display name
and version. -/
def fakeConnector (id displayName version : String) (impl : Nat) : Connector :=
  ⟨⟨str id, str displayName, [], str version, []⟩, impl⟩

/-- The three connectors of `TestListProviders`. -/
def threeProviders : List Connector :=
  [fakeConnector "s3" "Amazon S3" "1.0.0" 1, fakeConnector "webdav" "WebDAV" "1.0.0" 2,
   fakeConnector "dropbox" "Dropbox" "1.0.0" 3]

/-- A quoting function for the examples: the string between double quotes. -/
def plainQuote (s : GoString) : GoString := [34] ++ s ++ [34]

end connectors

/-! # Theorems -/

/-! ## Lengths in the block cipher -/

theorem xorBytes_length (a b : Bytes) : (xorBytes a b).length = min a.length b.length := by
  simp [xorBytes]

theorem xorBytes_cancel (a k : Bytes) (h : a.length ≤ k.length) :
    xorBytes (xorBytes a k) k = a := by
  induction a generalizing k with
  | nil => simp [xorBytes]
  | cons x xs ih =>
    cases k with
    | nil => simp at h
    | cons y ys =>
      have h2 : xs.length ≤ ys.length := by simpa using h
      have := ih ys h2
      simp only [xorBytes, List.zipWith_cons_cons] at this ⊢
      rw [this, Nat.xor_assoc, Nat.xor_self, Nat.xor_zero]

namespace aes

theorem shiftRows_length (s : Bytes) : (shiftRows s).length = s.length := by
  unfold shiftRows
  split <;> simp

theorem mixColumns_length (s : Bytes) : (mixColumns s).length = s.length := by
  induction s using mixColumns.induct with
  | case1 a0 a1 a2 a3 rest ih => simp [mixColumns, ih]
  | case2 s h => 
    unfold mixColumns
    split
    · exact absurd rfl (h _ _ _ _ _)
    · rfl

theorem rounds_length (rks : List Bytes) (s : Bytes) (hs : s.length = 16)
    (hk : ∀ k ∈ rks, k.length = 16) : (rounds rks s).length = 16 := by
  induction rks, s using rounds.induct with
  | case1 s => simpa [rounds] using hs
  | case2 k s =>
    have := hk k (by simp)
    simp [rounds, addRoundKey, xorBytes_length, shiftRows_length, subBytes, hs, this]
  | case3 k ks s hne ih =>
    have hk1 := hk k (by simp)
    rw [rounds]
    · apply ih
      · simp [addRoundKey, xorBytes_length, shiftRows_length, mixColumns_length, subBytes, hs, hk1]
      · intro k' hk'; exact hk k' (by simp [hk'])
    · exact hne

theorem encryptBlock_length (rks : List Bytes) (blk : Bytes) (hb : blk.length = 16)
    (hk : ∀ k ∈ rks, k.length = 16) : (encryptBlock rks blk).length = 16 := by
  cases rks with
  | nil => simpa [encryptBlock] using hb
  | cons k0 ks =>
    have h0 := hk k0 (by simp)
    simp only [encryptBlock]
    apply rounds_length
    · simp [addRoundKey, xorBytes_length, hb, h0]
    · intro k hk'; exact hk k (by simp [hk'])

end aes

namespace aes

theorem words_mem_length (key : Bytes) : ∀ w ∈ words key, w.length = 4 := by
  induction key using words.induct with
  | case1 b0 b1 b2 b3 rest ih =>
    intro w hw
    simp only [words, List.mem_cons] at hw
    rcases hw with rfl | hw
    · rfl
    · exact ih w hw
  | case2 key h =>
    intro w hw
    unfold words at hw
    split at hw
    · exact absurd rfl (h _ _ _ _ _)
    · simp at hw

theorem words_length (key : Bytes) : (words key).length = key.length / 4 := by
  induction key using words.induct with
  | case1 b0 b1 b2 b3 rest ih =>
    simp only [words, List.length_cons, ih]
    omega
  | case2 key h =>
    unfold words
    split
    · exact absurd rfl (h _ _ _ _ _)
    · match key, h with
      | [], _ => rfl
      | [_], _ => simp
      | [_, _], _ => simp
      | [_, _, _], _ => simp
      | a :: b :: c :: d :: r, h => exact absurd rfl (h a b c d r)

theorem rotWord_length (w : Bytes) : (rotWord w).length = w.length := by
  cases w <;> simp [rotWord]

theorem getD_mem_length (ws : List Bytes) (i : Nat) (hi : i < ws.length)
    (h4 : ∀ w ∈ ws, w.length = 4) : (ws.getD i []).length = 4 := by
  rw [List.getD_eq_getElem ws [] hi]
  exact h4 _ (List.getElem_mem hi)

theorem nextWord_length (nk : Nat) (ws : List Bytes) (h4 : ∀ w ∈ ws, w.length = 4)
    (hnk : 0 < nk) (hle : nk ≤ ws.length) : (nextWord nk ws).length = 4 := by
  have h1 : (ws.getD (ws.length - 1) []).length = 4 := getD_mem_length ws _ (by omega) h4
  have h2 : (ws.getD (ws.length - nk) []).length = 4 := getD_mem_length ws _ (by omega) h4
  simp only [nextWord, xorBytes_length, h2]
  split
  · simp only [xorBytes_length, subWord, List.length_map, rotWord_length, h1]
    rfl
  · split
    · simp only [subWord, List.length_map, h1]
      rfl
    · simp only [h1]
      rfl

theorem expandWords_mem_length (nk n : Nat) (ws : List Bytes) (h4 : ∀ w ∈ ws, w.length = 4)
    (hnk : 0 < nk) (hle : nk ≤ ws.length) : ∀ w ∈ expandWords nk n ws, w.length = 4 := by
  induction n generalizing ws with
  | zero => simpa [expandWords] using h4
  | succ n ih =>
    simp only [expandWords]
    apply ih
    · intro w hw
      simp only [List.mem_append, List.mem_singleton] at hw
      rcases hw with hw | rfl
      · exact h4 w hw
      · exact nextWord_length nk ws h4 hnk hle
    · simp; omega

theorem roundKeys_mem_length (ws : List Bytes) (h4 : ∀ w ∈ ws, w.length = 4) :
    ∀ k ∈ roundKeys ws, k.length = 16 := by
  induction ws using roundKeys.induct with
  | case1 w0 w1 w2 w3 rest ih =>
    intro k hk
    simp only [roundKeys, List.mem_cons] at hk
    rcases hk with rfl | hk
    · simp [h4 w0 (by simp), h4 w1 (by simp), h4 w2 (by simp), h4 w3 (by simp)]
    · exact ih (fun w hw => h4 w (by simp [hw])) k hk
  | case2 ws h =>
    intro k hk
    unfold roundKeys at hk
    split at hk
    · exact absurd rfl (h _ _ _ _ _)
    · simp at hk

theorem keyExpansion_mem_length (key : Bytes) (h : 4 ≤ key.length) :
    ∀ k ∈ keyExpansion key, k.length = 16 := by
  unfold keyExpansion
  apply roundKeys_mem_length
  apply expandWords_mem_length
  · exact words_mem_length key
  · omega
  · rw [words_length]

/-- A block of an AES cipher made by `NewCipher` encrypts 16 bytes to 16 bytes. -/
theorem NewCipher_encrypt_length (key : Bytes) (c : Block) (h : NewCipher key = .ok c)
    (src : Bytes) (hs : src.length = 16) : (c.Encrypt src).length = 16 := by
  unfold NewCipher at h
  split at h
  · rename_i hlen
    injection h with h
    subst h
    exact encryptBlock_length _ _ hs (keyExpansion_mem_length key (by omega))
  · exact absurd h (by simp)

end aes

/-! ## Counter mode and the tag -/

theorem beBytes_length (n x : Nat) : (beBytes n x).length = n := by
  induction n with
  | zero => rfl
  | succ n ih => simp [beBytes, ih]

namespace cipher

theorem counterBlock_length (nonce : Bytes) (hn : nonce.length = 12) (ctr : Nat) :
    (counterBlock nonce ctr).length = 16 := by
  simp [counterBlock, beBytes_length, hn]

theorem keystream_length (g : GCM) (hg : g.BlockSized) (nonce : Bytes)
    (hn : nonce.length = 12) (n ctr : Nat) : (g.keystream nonce n ctr).length = 16 * n := by
  induction n generalizing ctr with
  | zero => rfl
  | succ n ih =>
    simp only [GCM.keystream, List.length_append, ih, hg _ (counterBlock_length nonce hn ctr)]
    omega

theorem counterCrypt_length (g : GCM) (hg : g.BlockSized) (nonce : Bytes)
    (hn : nonce.length = 12) (src : Bytes) : (g.counterCrypt nonce src).length = src.length := by
  simp only [GCM.counterCrypt, xorBytes_length, keystream_length g hg nonce hn]
  omega

/-- Counter mode is its own inverse. -/
theorem counterCrypt_counterCrypt (g : GCM) (hg : g.BlockSized) (nonce : Bytes)
    (hn : nonce.length = 12) (src : Bytes) :
    g.counterCrypt nonce (g.counterCrypt nonce src) = src := by
  have hl := counterCrypt_length g hg nonce hn src
  unfold GCM.counterCrypt at hl ⊢
  rw [hl]
  apply xorBytes_cancel
  rw [keystream_length g hg nonce hn]
  omega

theorem auth_length (g : GCM) (hg : g.BlockSized) (nonce : Bytes) (hn : nonce.length = 12)
    (ct data : Bytes) : (g.auth nonce ct data).length = 16 := by
  simp only [GCM.auth, xorBytes_length, beBytes_length,
    hg _ (counterBlock_length nonce hn 1)]
  rfl

/-- What `Seal` returns for a 12-byte nonce and a plaintext within the limit. -/
theorem Seal_eq (g : GCM) (dst nonce pt data : Bytes) (hn : nonce.length = 12)
    (hpt : pt.length ≤ gcmMaxPlaintext) :
    g.Seal dst nonce pt data =
      .ok (dst ++ g.counterCrypt nonce pt ++ g.auth nonce (g.counterCrypt nonce pt) data) := by
  simp [GCM.Seal, GCM.NonceSize, hn, Nat.not_lt.mpr hpt]

/-- What `Open` returns on `ct ‖ tag` with a 16-byte tag. -/
theorem Open_eq (g : GCM) (dst nonce ct tag data : Bytes) (hn : nonce.length = 12)
    (hct : ct.length ≤ gcmMaxPlaintext) (ht : tag.length = 16) :
    g.Open dst nonce (ct ++ tag) data =
      if g.auth nonce ct data ≠ tag then .err errOpen
      else .ok (dst ++ g.counterCrypt nonce ct) := by
  have h1 : ¬ (ct ++ tag).length < 16 := by simp [ht]
  have h2 : ¬ (ct ++ tag).length > gcmMaxPlaintext + 16 := by simp [ht]; omega
  have h3 : (ct ++ tag).length - 16 = ct.length := by simp [ht]
  simp only [GCM.Open, GCM.NonceSize, hn, h1, h2, h3, ne_eq, not_true_eq_false, if_false,
    List.drop_left, List.take_left]

/-- `Open` undoes `Seal`. -/
theorem Open_Seal (g : GCM) (hg : g.BlockSized) (nonce pt : Bytes) (hn : nonce.length = 12)
    (hpt : pt.length ≤ gcmMaxPlaintext) :
    g.Open [] nonce (g.counterCrypt nonce pt ++ g.auth nonce (g.counterCrypt nonce pt) []) []
      = .ok pt := by
  rw [Open_eq g [] nonce _ _ [] hn (by rw [counterCrypt_length g hg nonce hn]; exact hpt)
    (auth_length g hg nonce hn _ _)]
  simp [counterCrypt_counterCrypt g hg nonce hn]

end cipher

/-! ## `encrypt` and `decrypt` -/

theorem NewCipher_eq (key : Bytes) (hk : aes.KeyLength key) :
    aes.NewCipher key = .ok ⟨aes.keyExpansion key⟩ := by
  unfold aes.KeyLength at hk
  simp [aes.NewCipher, hk]

theorem NewCipher_error (key : Bytes) (hk : ¬ aes.KeyLength key) :
    aes.NewCipher key = .error (aes.KeySizeError key.length) := by
  unfold aes.KeyLength at hk
  simp [aes.NewCipher, hk]

theorem gcmOf_blockSized (key : Bytes) (hk : aes.KeyLength key) : (gcmOf key).BlockSized := by
  intro src hs
  exact aes.NewCipher_encrypt_length key _ (NewCipher_eq key hk) src hs

theorem ReadFull_eq (r : Reader) (n : Nat) (h : n ≤ r.data.length) :
    io.ReadFull r n = .ok (r.data.take n) := by
  simp [io.ReadFull, h]

theorem encrypt_eq (rand : Reader) (key pt : Bytes) (hk : aes.KeyLength key)
    (hr : 12 ≤ rand.data.length) (hpt : pt.length ≤ cipher.gcmMaxPlaintext) :
    aesgcmStore.encrypt rand key pt = .ok (sealed key (rand.data.take 12) pt) := by
  have hn : (rand.data.take 12).length = 12 := by simp [hr]
  simp only [aesgcmStore.encrypt, NewCipher_eq key hk, cipher.NewGCM, cipher.GCM.NonceSize,
    ReadFull_eq rand 12 hr]
  exact cipher.Seal_eq _ _ _ _ _ hn hpt

theorem encrypt_panic (rand : Reader) (key pt : Bytes) (hk : aes.KeyLength key)
    (hr : 12 ≤ rand.data.length) (hpt : cipher.gcmMaxPlaintext < pt.length) :
    aesgcmStore.encrypt rand key pt = .panic (str "crypto/cipher: message too large for GCM") := by
  have hn : (rand.data.take 12).length = 12 := by simp [hr]
  simp only [aesgcmStore.encrypt, NewCipher_eq key hk, cipher.NewGCM, cipher.GCM.NonceSize,
    ReadFull_eq rand 12 hr]
  simp [cipher.GCM.Seal, cipher.GCM.NonceSize, hn, hpt]

/-- What `decrypt` does with `nonce ‖ ct ‖ tag`. -/
theorem decrypt_eq (key nonce ct tag : Bytes) (hk : aes.KeyLength key) (hn : nonce.length = 12)
    (hct : ct.length ≤ cipher.gcmMaxPlaintext) (ht : tag.length = 16) :
    aesgcmStore.decrypt key (nonce ++ ct ++ tag) =
      if (gcmOf key).auth nonce ct [] ≠ tag then .err cipher.errOpen
      else .ok ((gcmOf key).counterCrypt nonce ct) := by
  have h1 : ¬ (nonce ++ ct ++ tag).length < 12 := by simp [hn]
  have h2 : (nonce ++ ct ++ tag).take 12 = nonce := by
    rw [List.append_assoc, ← hn, List.take_left]
  have h3 : (nonce ++ ct ++ tag).drop 12 = ct ++ tag := by
    rw [List.append_assoc, ← hn, List.drop_left]
  simp only [aesgcmStore.decrypt, NewCipher_eq key hk, cipher.NewGCM, cipher.GCM.NonceSize,
    h1, h2, h3, if_false]
  rw [cipher.Open_eq _ [] nonce ct tag [] hn hct ht]
  simp [gcmOf]

theorem sealed_lengths (key nonce pt : Bytes) (hk : aes.KeyLength key) (hn : nonce.length = 12) :
    ((gcmOf key).counterCrypt nonce pt).length = pt.length ∧
    ((gcmOf key).auth nonce ((gcmOf key).counterCrypt nonce pt) []).length = 16 :=
  ⟨cipher.counterCrypt_length _ (gcmOf_blockSized key hk) nonce hn pt,
   cipher.auth_length _ (gcmOf_blockSized key hk) nonce hn _ _⟩

/-- `decrypt` under the key of `encrypt` gives the plaintext back. -/
theorem decrypt_sealed (key nonce pt : Bytes) (hk : aes.KeyLength key) (hn : nonce.length = 12)
    (hpt : pt.length ≤ cipher.gcmMaxPlaintext) :
    aesgcmStore.decrypt key (sealed key nonce pt) = .ok pt := by
  obtain ⟨hl, ht⟩ := sealed_lengths key nonce pt hk hn
  unfold sealed
  rw [decrypt_eq key nonce _ _ hk hn (by rw [hl]; exact hpt) ht]
  simp [cipher.counterCrypt_counterCrypt _ (gcmOf_blockSized key hk) nonce hn]

/-! ## The store operations on their main paths -/

theorem Put_eq_of_encrypt (s : aesgcmStore) (env : Env) (key : GoString) (value masterKey blob : Bytes)
    (hkey : key ≠ []) (hv : value ≠ []) (hg : env.keyProvider.GetKey = .ok masterKey)
    (he : aesgcmStore.encrypt env.rand masterKey value = .ok blob) :
    s.Put env key value =
      .exit { s with secrets := s.secrets.insert key blob } (.ok ())
        ⟨env.now, str "put", key, true, [], [(str "size", fmt.Sprintf_d value.length)]⟩ := by
  have hv2 : ¬ value.length = 0 := by simpa using hv
  simp only [aesgcmStore.Put, hkey, hv2, hg, he, if_false]

theorem Put_ok (s : aesgcmStore) (env : Env) (key : GoString) (value masterKey : Bytes)
    (hkey : key ≠ []) (hv : value ≠ []) (hg : env.keyProvider.GetKey = .ok masterKey)
    (hk : aes.KeyLength masterKey) (hr : 12 ≤ env.rand.data.length)
    (hpt : value.length ≤ cipher.gcmMaxPlaintext) :
    s.Put env key value =
      .exit { s with secrets := s.secrets.insert key (sealed masterKey (env.rand.data.take 12) value) }
        (.ok ())
        ⟨env.now, str "put", key, true, [], [(str "size", fmt.Sprintf_d value.length)]⟩ :=
  Put_eq_of_encrypt s env key value masterKey _ hkey hv hg (encrypt_eq _ _ _ hk hr hpt)

theorem Put_panic (s : aesgcmStore) (env : Env) (key : GoString) (value masterKey : Bytes)
    (hkey : key ≠ []) (hg : env.keyProvider.GetKey = .ok masterKey)
    (hk : aes.KeyLength masterKey) (hr : 12 ≤ env.rand.data.length)
    (hpt : cipher.gcmMaxPlaintext < value.length) :
    s.Put env key value =
      .exit s (.panic (str "crypto/cipher: message too large for GCM"))
        ⟨env.now, str "put", key, false, [], []⟩ := by
  have hv2 : ¬ value.length = 0 := by omega
  simp only [aesgcmStore.Put, hkey, hv2, hg, encrypt_panic _ _ _ hk hr hpt, if_false]

theorem Get_eq_of_decrypt (s : aesgcmStore) (env : Env) (key : GoString) (blob masterKey : Bytes)
    (hkey : key ≠ []) (hl : s.secrets.lookup key = some blob)
    (hg : env.keyProvider.GetKey = .ok masterKey) :
    s.Get env key =
      match aesgcmStore.decrypt masterKey blob with
      | .err err =>
        .exit s (.err (fmt.Errorf_w_v ErrDecryption err))
          ⟨env.now, str "get", key, false, fmt.Sprintf_v_v ErrDecryption err, []⟩
      | .panic m => .exit s (.panic m) ⟨env.now, str "get", key, false, [], []⟩
      | .ok plaintext =>
        .exit s (.ok plaintext)
          ⟨env.now, str "get", key, true, [], [(str "size", fmt.Sprintf_d plaintext.length)]⟩ := by
  simp only [aesgcmStore.Get, hkey, hl, hg, if_false]



/-! ## Published test vectors -/

set_option maxRecDepth 1000000 in
/-- FIPS 197, appendix C.3: AES-256 on the block 00 11 22 … ff under the key
00 01 02 … 1f. -/
theorem aes256_fips197_c3 :
    (gcmOf countingKey).cipher.Encrypt
        [0x00, 0x11, 0x22, 0x33, 0x44, 0x55, 0x66, 0x77, 0x88, 0x99, 0xaa, 0xbb, 0xcc, 0xdd, 0xee, 0xff] =
      [0x8e, 0xa2, 0xb7, 0xca, 0x51, 0x67, 0x45, 0xbf, 0xea, 0xfc, 0x49, 0x90, 0x4b, 0x49, 0x60, 0x89] := by
  decide

set_option maxRecDepth 1000000 in
/-- Test case 14 of the GCM specification (AES-256, all-zero key, all-zero
96-bit IV, one all-zero block of plaintext). -/
theorem gcm_test_case_14 :
    aesgcmStore.encrypt zeroEnv.rand zeroKey (List.replicate 16 0) =
      .ok (List.replicate 12 0 ++
        [0xce, 0xa7, 0x40, 0x3d, 0x4d, 0x60, 0x6b, 0x6e, 0x07, 0x4e, 0xc5, 0xd3, 0xba, 0xf3, 0x9d, 0x18,
         0xd0, 0xd1, 0xc8, 0xa7, 0x99, 0x99, 0x6b, 0xf0, 0x26, 0x5b, 0x98, 0xb5, 0xd4, 0x8a, 0xb9, 0x19]) := by
  decide

set_option maxRecDepth 1000000 in
/-- Test case 15 of the GCM specification (AES-256, 96-bit IV, 64 bytes of
plaintext, no additional data): `encrypt` gives IV, ciphertext and tag, and
`decrypt` gives the plaintext back. -/
theorem gcm_test_case_15 :
    aesgcmStore.encrypt ⟨[0xca, 0xfe, 0xba, 0xbe, 0xfa, 0xce, 0xdb, 0xad, 0xde, 0xca, 0xf8, 0x88], io.ErrUnexpectedEOF⟩
        [0xfe, 0xff, 0xe9, 0x92, 0x86, 0x65, 0x73, 0x1c, 0x6d, 0x6a, 0x8f, 0x94, 0x67, 0x30, 0x83, 0x08,
         0xfe, 0xff, 0xe9, 0x92, 0x86, 0x65, 0x73, 0x1c, 0x6d, 0x6a, 0x8f, 0x94, 0x67, 0x30, 0x83, 0x08]
        [0xd9, 0x31, 0x32, 0x25, 0xf8, 0x84, 0x06, 0xe5, 0xa5, 0x59, 0x09, 0xc5, 0xaf, 0xf5, 0x26, 0x9a,
         0x86, 0xa7, 0xa9, 0x53, 0x15, 0x34, 0xf7, 0xda, 0x2e, 0x4c, 0x30, 0x3d, 0x8a, 0x31, 0x8a, 0x72,
         0x1c, 0x3c, 0x0c, 0x95, 0x95, 0x68, 0x09, 0x53, 0x2f, 0xcf, 0x0e, 0x24, 0x49, 0xa6, 0xb5, 0x25,
         0xb1, 0x6a, 0xed, 0xf5, 0xaa, 0x0d, 0xe6, 0x57, 0xba, 0x63, 0x7b, 0x39, 0x1a, 0xaf, 0xd2, 0x55] =
      .ok [0xca, 0xfe, 0xba, 0xbe, 0xfa, 0xce, 0xdb, 0xad, 0xde, 0xca, 0xf8, 0x88, 0x52, 0x2d, 0xc1, 0xf0,
           0x99, 0x56, 0x7d, 0x07, 0xf4, 0x7f, 0x37, 0xa3, 0x2a, 0x84, 0x42, 0x7d, 0x64, 0x3a, 0x8c, 0xdc,
           0xbf, 0xe5, 0xc0, 0xc9, 0x75, 0x98, 0xa2, 0xbd, 0x25, 0x55, 0xd1, 0xaa, 0x8c, 0xb0, 0x8e, 0x48,
           0x59, 0x0d, 0xbb, 0x3d, 0xa7, 0xb0, 0x8b, 0x10, 0x56, 0x82, 0x88, 0x38, 0xc5, 0xf6, 0x1e, 0x63,
           0x93, 0xba, 0x7a, 0x0a, 0xbc, 0xc9, 0xf6, 0x62, 0x89, 0x80, 0x15, 0xad, 0xb0, 0x94, 0xda, 0xc5,
           0xd9, 0x34, 0x71, 0xbd, 0xec, 0x1a, 0x50, 0x22, 0x70, 0xe3, 0xcc, 0x6c] ∧
    aesgcmStore.decrypt
        [0xfe, 0xff, 0xe9, 0x92, 0x86, 0x65, 0x73, 0x1c, 0x6d, 0x6a, 0x8f, 0x94, 0x67, 0x30, 0x83, 0x08,
         0xfe, 0xff, 0xe9, 0x92, 0x86, 0x65, 0x73, 0x1c, 0x6d, 0x6a, 0x8f, 0x94, 0x67, 0x30, 0x83, 0x08]
        [0xca, 0xfe, 0xba, 0xbe, 0xfa, 0xce, 0xdb, 0xad, 0xde, 0xca, 0xf8, 0x88, 0x52, 0x2d, 0xc1, 0xf0,
         0x99, 0x56, 0x7d, 0x07, 0xf4, 0x7f, 0x37, 0xa3, 0x2a, 0x84, 0x42, 0x7d, 0x64, 0x3a, 0x8c, 0xdc,
         0xbf, 0xe5, 0xc0, 0xc9, 0x75, 0x98, 0xa2, 0xbd, 0x25, 0x55, 0xd1, 0xaa, 0x8c, 0xb0, 0x8e, 0x48,
         0x59, 0x0d, 0xbb, 0x3d, 0xa7, 0xb0, 0x8b, 0x10, 0x56, 0x82, 0x88, 0x38, 0xc5, 0xf6, 0x1e, 0x63,
         0x93, 0xba, 0x7a, 0x0a, 0xbc, 0xc9, 0xf6, 0x62, 0x89, 0x80, 0x15, 0xad, 0xb0, 0x94, 0xda, 0xc5,
         0xd9, 0x34, 0x71, 0xbd, 0xec, 0x1a, 0x50, 0x22, 0x70, 0xe3, 0xcc, 0x6c] =
      .ok [0xd9, 0x31, 0x32, 0x25, 0xf8, 0x84, 0x06, 0xe5, 0xa5, 0x59, 0x09, 0xc5, 0xaf, 0xf5, 0x26, 0x9a,
           0x86, 0xa7, 0xa9, 0x53, 0x15, 0x34, 0xf7, 0xda, 0x2e, 0x4c, 0x30, 0x3d, 0x8a, 0x31, 0x8a, 0x72,
           0x1c, 0x3c, 0x0c, 0x95, 0x95, 0x68, 0x09, 0x53, 0x2f, 0xcf, 0x0e, 0x24, 0x49, 0xa6, 0xb5, 0x25,
           0xb1, 0x6a, 0xed, 0xf5, 0xaa, 0x0d, 0xe6, 0x57, 0xba, 0x63, 0x7b, 0x39, 0x1a, 0xaf, 0xd2, 0x55] := by
  decide

/-! # The claims -/

theorem ReadFull_ok (r : Reader) (n : Nat) (bs : Bytes) (h : io.ReadFull r n = .ok bs) :
    n ≤ r.data.length ∧ bs = r.data.take n := by
  unfold io.ReadFull at h
  split at h
  · rename_i hn
    injection h with h
    exact ⟨hn, h.symm⟩
  · exact absurd h (by simp)

/-- C1, counterexample: with a non-empty name, a non-empty value, a provider
that returns a 32-byte key and a random source that succeeds, `Put` of a value
of `2^36 - 31` bytes does not return, because `Seal` panics; nothing is stored,
and the following `Get` returns `ErrNotFound`. -/
theorem C1_counterexample :
    str "k" ≠ [] ∧ oversized ≠ [] ∧ zeroEnv.keyProvider.GetKey = .ok zeroKey ∧
    zeroKey.length = 32 ∧ io.ReadFull zeroEnv.rand 12 = .ok (List.replicate 12 0) ∧
    (NewAESGCMStore.Put zeroEnv (str "k") oversized).outcome =
      .panic (str "crypto/cipher: message too large for GCM") ∧
    ((NewAESGCMStore.Put zeroEnv (str "k") oversized).store.Get zeroEnv (str "k")).outcome =
      .err ErrNotFound := by
  have hlen : oversized.length = cipher.gcmMaxPlaintext + 1 := List.length_replicate _ _
  have hput := Put_panic NewAESGCMStore zeroEnv (str "k") oversized zeroKey (by decide) rfl
    (by decide) (by decide) (by omega)
  refine ⟨by decide, ?_, rfl, by decide, rfl, ?_, ?_⟩
  · intro h
    rw [h] at hlen
    exact absurd hlen (by decide)
  · rw [hput]
    rfl
  · rw [hput]
    decide

/-- C1 (amended): for every store, every non-empty name and every non-empty
value of at most `(2^32 - 2) * 16` bytes, with a provider that returns the same
32-byte key to both calls and a random source that fills the nonce, `Put`
returns no error and the following `Get` returns exactly the value. -/
theorem C1_put_get_roundtrip (s : aesgcmStore) (envPut envGet : Env) (name : GoString)
    (value masterKey nonce : Bytes) (hname : name ≠ []) (hvalue : value ≠ [])
    (hsize : value.length ≤ cipher.gcmMaxPlaintext)
    (hput : envPut.keyProvider.GetKey = .ok masterKey)
    (hget : envGet.keyProvider.GetKey = .ok masterKey)
    (hkey : masterKey.length = 32) (hrand : io.ReadFull envPut.rand 12 = .ok nonce) :
    (s.Put envPut name value).outcome = .ok () ∧
    ((s.Put envPut name value).store.Get envGet name).outcome = .ok value := by
  obtain ⟨hr, _⟩ := ReadFull_ok _ _ _ hrand
  have hk : aes.KeyLength masterKey := Or.inr (Or.inr hkey)
  have hn : (envPut.rand.data.take 12).length = 12 := by simp [hr]
  rw [Put_ok s envPut name value masterKey hname hvalue hput hk hr hsize]
  refine ⟨rfl, ?_⟩
  simp only [Result.exit]
  rw [Get_eq_of_decrypt ⟨s.secrets.insert name _⟩ envGet name _ masterKey hname
      (AList.lookup_insert _) hget,
    decrypt_sealed masterKey _ value hk hn hsize]
  rfl

/-- C1 (amended), at the round trip of `vault_test.go`. -/
theorem C1_put_get_roundtrip_witness :
    (NewAESGCMStore.Put zeroEnv (str "test-key") (str "my-secret-password")).outcome = .ok () ∧
    ((NewAESGCMStore.Put zeroEnv (str "test-key") (str "my-secret-password")).store.Get
      zeroEnv (str "test-key")).outcome = .ok (str "my-secret-password") :=
  C1_put_get_roundtrip NewAESGCMStore zeroEnv zeroEnv (str "test-key")
    (str "my-secret-password") zeroKey (List.replicate 12 0) (by decide) (by decide) (by decide)
    rfl rfl (by decide) rfl

/-- C3: `Put` with the empty name returns `ErrKeyEmpty` whatever the value
(the empty one included) and whatever the provider; `Get` with the empty name
returns `ErrKeyEmpty`; `Put` of the empty value under a non-empty name returns
`ErrValueEmpty`. -/
theorem C3_empty_name_empty_value (s : aesgcmStore) (env : Env) :
    (∀ v : Bytes, (s.Put env [] v).outcome = .err ErrKeyEmpty) ∧
    (s.Get env []).outcome = .err ErrKeyEmpty ∧
    (∀ k : GoString, k ≠ [] → (s.Put env k []).outcome = .err ErrValueEmpty) := by
  refine ⟨fun v => ?_, ?_, fun k hk => ?_⟩
  · simp [aesgcmStore.Put, Result.exit]
  · simp [aesgcmStore.Get, Result.exit]
  · simp [aesgcmStore.Put, Result.exit, hk]

/-- C3, at the name `empty` of `vault_test.go`, with a failing provider. -/
theorem C3_empty_name_empty_value_witness :
    str "empty" ≠ [] ∧
    (NewAESGCMStore.Put failingEnv (str "empty") []).outcome = .err ErrValueEmpty :=
  ⟨by decide, (C3_empty_name_empty_value NewAESGCMStore failingEnv).2.2 (str "empty") (by decide)⟩

/-- C4: for a stored non-empty name, `Delete` succeeds and the following `Get`
returns `ErrNotFound`, whatever the key provider does in either call. -/
theorem C4_delete_then_get (s : aesgcmStore) (envDelete envGet : Env) (name : GoString)
    (hname : name ≠ []) (hstored : name ∈ s.secrets) :
    (s.Delete envDelete name).outcome = .ok () ∧
    ((s.Delete envDelete name).store.Get envGet name).outcome = .err ErrNotFound := by
  obtain ⟨blob, hb⟩ := Option.isSome_iff_exists.mp (AList.lookup_isSome.mpr hstored)
  simp [aesgcmStore.Delete, aesgcmStore.Get, Result.exit, hname, hb, AList.lookup_erase]

/-- C4, for a store holding `delete-me`, with a provider whose `GetKey` fails. -/
theorem C4_delete_then_get_witness :
    ((⟨(∅ : AList fun _ : GoString => Bytes).insert (str "delete-me") (List.replicate 29 7)⟩ :
        aesgcmStore).Delete failingEnv (str "delete-me")).outcome = .ok () ∧
    (((⟨(∅ : AList fun _ : GoString => Bytes).insert (str "delete-me") (List.replicate 29 7)⟩ :
        aesgcmStore).Delete failingEnv (str "delete-me")).store.Get failingEnv
          (str "delete-me")).outcome = .err ErrNotFound :=
  C4_delete_then_get _ failingEnv failingEnv (str "delete-me") (by decide)
    ((AList.mem_insert _).mpr (Or.inl rfl))


/-! ## `List` -/

theorem Strings_sorted (x : List GoString) : (sort.Strings x).Sorted (· ≤ ·) :=
  List.sorted_insertionSort _ x

theorem Strings_perm (x : List GoString) : (sort.Strings x).Perm x :=
  List.perm_insertionSort _ x

theorem Strings_strict (x : List GoString) (h : x.Nodup) : (sort.Strings x).Sorted (· < ·) :=
  (Strings_sorted x).lt_of_le ((Strings_perm x).nodup_iff.mpr h)

/-- The sorted list of names is a function of the set of names alone. -/
theorem Strings_eq_sort (x : List GoString) (h : x.Nodup) :
    sort.Strings x = Finset.sort (· ≤ ·) x.toFinset := by
  apply List.eq_of_perm_of_sorted (r := (· ≤ ·)) _ (Strings_sorted x) (Finset.sort_sorted _ _)
  apply (List.perm_ext_iff_of_nodup ((Strings_perm x).nodup_iff.mpr h) (Finset.sort_nodup _ _)).mpr
  intro a
  simp [(Strings_perm x).mem_iff]

theorem List_eq (s : aesgcmStore) (env : Env) :
    s.List env = .exit s (.ok (sort.Strings s.secrets.keys))
      ⟨env.now, str "list", [], true, [],
        [(str "count", fmt.Sprintf_d (sort.Strings s.secrets.keys).length)]⟩ := rfl


/-! ## What each call does to the secret map -/

theorem Put_cases (s : aesgcmStore) (env : Env) (key : GoString) (value : Bytes) :
    ((s.Put env key value).store = s ∧ (s.Put env key value).outcome ≠ .ok ()) ∨
    ∃ blob, (s.Put env key value).store = ⟨s.secrets.insert key blob⟩ ∧
      (s.Put env key value).outcome = .ok () := by
  by_cases hk : key = []
  · left; simp [aesgcmStore.Put, Result.exit, hk]
  by_cases hv : value.length = 0
  · left; simp [aesgcmStore.Put, Result.exit, hk, hv]
  cases hg : env.keyProvider.GetKey with
  | error e => left; simp [aesgcmStore.Put, Result.exit, hk, hv, hg]
  | ok masterKey =>
    cases he : aesgcmStore.encrypt env.rand masterKey value with
    | err e => left; simp [aesgcmStore.Put, Result.exit, hk, hv, hg, he]
    | panic m => left; simp [aesgcmStore.Put, Result.exit, hk, hv, hg, he]
    | ok blob => right; exact ⟨blob, by simp [aesgcmStore.Put, Result.exit, hk, hv, hg, he]⟩

theorem Put_store_of_ok (s : aesgcmStore) (env : Env) (key : GoString) (value : Bytes)
    (h : (s.Put env key value).outcome = .ok ()) :
    ∃ blob, (s.Put env key value).store = ⟨s.secrets.insert key blob⟩ := by
  rcases Put_cases s env key value with ⟨_, h2⟩ | ⟨blob, h1, _⟩
  · exact absurd h h2
  · exact ⟨blob, h1⟩

theorem Put_store_of_not_ok (s : aesgcmStore) (env : Env) (key : GoString) (value : Bytes)
    (h : (s.Put env key value).outcome ≠ .ok ()) : (s.Put env key value).store = s := by
  rcases Put_cases s env key value with ⟨h1, _⟩ | ⟨blob, _, h2⟩
  · exact h1
  · exact absurd h2 h

theorem Delete_cases (s : aesgcmStore) (env : Env) (key : GoString) :
    ((s.Delete env key).store = s ∧ (s.Delete env key).outcome ≠ .ok ()) ∨
    (key ∈ s.secrets ∧ (s.Delete env key).store = ⟨s.secrets.erase key⟩ ∧
      (s.Delete env key).outcome = .ok ()) := by
  by_cases hk : key = []
  · left; simp [aesgcmStore.Delete, Result.exit, hk]
  cases hl : s.secrets.lookup key with
  | none => left; simp [aesgcmStore.Delete, Result.exit, hk, hl]
  | some blob =>
    right
    refine ⟨AList.lookup_isSome.mp (by simp [hl]), ?_⟩
    simp [aesgcmStore.Delete, Result.exit, hk, hl]

theorem Delete_store_of_ok (s : aesgcmStore) (env : Env) (key : GoString)
    (h : (s.Delete env key).outcome = .ok ()) :
    key ∈ s.secrets ∧ (s.Delete env key).store = ⟨s.secrets.erase key⟩ := by
  rcases Delete_cases s env key with ⟨_, h2⟩ | ⟨h1, h2, _⟩
  · exact absurd h h2
  · exact ⟨h1, h2⟩

theorem Delete_store_of_not_ok (s : aesgcmStore) (env : Env) (key : GoString)
    (h : (s.Delete env key).outcome ≠ .ok ()) : (s.Delete env key).store = s := by
  rcases Delete_cases s env key with ⟨h1, _⟩ | ⟨_, _, h2⟩
  · exact h1
  · exact absurd h2 h

theorem Get_store (s : aesgcmStore) (env : Env) (key : GoString) : (s.Get env key).store = s := by
  unfold aesgcmStore.Get
  simp only [Result.exit]
  split
  · rfl
  · split
    · rfl
    · split
      · rfl
      · split <;> rfl

theorem List_store (s : aesgcmStore) (env : Env) : (s.List env).store = s := rfl

theorem HealthCheck_store (s : aesgcmStore) (env : Env) : (s.HealthCheck env).store = s := by
  unfold aesgcmStore.HealthCheck
  simp only [Result.exit]
  split
  · rfl
  · split <;> rfl

theorem void_ne_ok_iff {α : Type} (o : Outcome α) : o.void = .ok () ↔ ∃ v, o = .ok v := by
  cases o <;> simp [Outcome.void]

/-- Membership in the map after a call: the call was a successful `Put` of the
name, or the name was there and the call was not a successful `Delete` of it. -/
theorem apply_mem (c : Call) (s : aesgcmStore) (env : Env) (n : GoString) :
    n ∈ (c.apply s env).store.secrets ↔
      successfulPut n (c, (c.apply s env).outcome) = true ∨
      (n ∈ s.secrets ∧ successfulDelete n (c, (c.apply s env).outcome) = false) := by
  cases c with
  | Put key value =>
    simp only [Call.apply]
    by_cases h : (s.Put env key value).outcome = .ok ()
    · obtain ⟨blob, hb⟩ := Put_store_of_ok s env key value h
      rw [hb, h]
      simp only [AList.mem_insert, successfulPut, successfulDelete, decide_eq_true_eq, and_true]
      by_cases hn : key = n
      · simp [hn]
      · simp [hn, Ne.symm hn]
    · rw [Put_store_of_not_ok s env key value h]
      cases ho : (s.Put env key value).outcome with
      | ok v => exact absurd ho h
      | err e => simp [successfulPut, successfulDelete]
      | panic m => simp [successfulPut, successfulDelete]
  | Get key =>
    simp only [Call.apply, Result.void, Get_store]
    cases (s.Get env key).outcome <;> simp [Outcome.void, successfulPut, successfulDelete]
  | Delete key =>
    simp only [Call.apply]
    by_cases h : (s.Delete env key).outcome = .ok ()
    · obtain ⟨hmem, hb⟩ := Delete_store_of_ok s env key h
      rw [hb, h]
      simp only [AList.mem_erase, successfulPut, successfulDelete, Bool.false_eq_true, false_or,
        decide_eq_false_iff_not]
      constructor
      · rintro ⟨h1, h2⟩; exact ⟨h2, Ne.symm h1⟩
      · rintro ⟨h1, h2⟩; exact ⟨Ne.symm h2, h1⟩
    · rw [Delete_store_of_not_ok s env key h]
      cases ho : (s.Delete env key).outcome with
      | ok v => exact absurd ho h
      | err e => simp [successfulPut, successfulDelete]
      | panic m => simp [successfulPut, successfulDelete]
  | List =>
    simp only [Call.apply, Result.void, List_store]
    cases (s.List env).outcome <;> simp [Outcome.void, successfulPut, successfulDelete]
  | HealthCheck =>
    simp only [Call.apply, HealthCheck_store]
    cases (s.HealthCheck env).outcome <;> simp [successfulPut, successfulDelete]

/-- Membership in the map after a sequence of calls. -/
theorem run_mem (s : aesgcmStore) (calls : List (Env × Call)) (n : GoString) :
    n ∈ (run s calls).store.secrets ↔
      putNotDeleted n (run s calls).trace = true ∨
      (n ∈ s.secrets ∧ (run s calls).trace.any (successfulDelete n) = false) := by
  induction calls generalizing s with
  | nil => simp [run, putNotDeleted]
  | cons ec rest ih =>
    obtain ⟨env, c⟩ := ec
    simp only [run, putNotDeleted, List.any_cons, Bool.or_eq_true, Bool.and_eq_true,
      Bool.not_eq_true', Bool.or_eq_false_iff]
    rw [ih, apply_mem]
    tauto


theorem perm_three {α : Type} (a b c : α) (l : List α) (h : l.Perm [a, b, c]) :
    l = [a, b, c] ∨ l = [a, c, b] ∨ l = [b, a, c] ∨ l = [b, c, a] ∨ l = [c, a, b] ∨
      l = [c, b, a] := by
  have := List.mem_permutations.mpr h
  simp [List.permutations, List.permutationsAux_cons, List.permutationsAux_nil,
    List.permutationsAux2, List.foldr] at this
  tauto

/-- C5: for every store, `List` returns the names in strictly ascending
byte-wise order, and the list is the sorted enumeration of the set of names,
so it does not depend on the order of insertion; inserting zebra, apple and
mango in any order gives apple, mango, zebra. -/
theorem C5_list_sorted (s : aesgcmStore) (env : Env) :
    (∃ names, (s.List env).outcome = .ok names ∧ names.Sorted (· < ·) ∧
      names = Finset.sort (· ≤ ·) s.secrets.keys.toFinset) ∧
    (∀ order : List (Env × Call), order.Perm fruitPuts →
      ((run NewAESGCMStore order).store.List env).outcome =
        .ok [str "apple", str "mango", str "zebra"]) := by
  refine ⟨⟨_, rfl, Strings_strict _ s.secrets.keys_nodup,
    Strings_eq_sort _ s.secrets.keys_nodup⟩, ?_⟩
  intro order h
  simp only [List_eq, Result.exit]
  rcases perm_three _ _ _ order h with rfl | rfl | rfl | rfl | rfl | rfl <;> decide

/-- C5, at the insertion order mango, zebra, apple. -/
theorem C5_list_sorted_witness :
    ((run NewAESGCMStore
        [(zeroEnv, .Put (str "mango") (str "m")), (zeroEnv, .Put (str "zebra") (str "z")),
         (zeroEnv, .Put (str "apple") (str "a"))]).store.List zeroEnv).outcome =
      .ok [str "apple", str "mango", str "zebra"] :=
  (C5_list_sorted NewAESGCMStore zeroEnv).2 _
    ((List.Perm.swap _ _ _).trans ((List.Perm.swap _ _ _).cons _))

/-- C6: after any sequence of calls on a new store, `List` returns no error and
exactly the names that have had a successful `Put` which no successful `Delete`
follows, each once; on a new store a successful `Put` of `n` makes `List`
return `[n]`, and after the following `Delete` of `n`, which succeeds, `List`
returns the empty sequence. -/
theorem C6_list_names (calls : List (Env × Call)) (env envPut envDelete : Env) (n : GoString)
    (v : Bytes) :
    (∃ names, ((run NewAESGCMStore calls).store.List env).outcome = .ok names ∧ names.Nodup ∧
      ∀ name, name ∈ names ↔ putNotDeleted name (run NewAESGCMStore calls).trace = true) ∧
    ((NewAESGCMStore.Put envPut n v).outcome = .ok () →
      ((NewAESGCMStore.Put envPut n v).store.List env).outcome = .ok [n] ∧
      ((NewAESGCMStore.Put envPut n v).store.Delete envDelete n).outcome = .ok () ∧
      (((NewAESGCMStore.Put envPut n v).store.Delete envDelete n).store.List env).outcome
        = .ok []) := by
  constructor
  · refine ⟨_, rfl, (Strings_perm _).nodup_iff.mpr (AList.keys_nodup _), fun name => ?_⟩
    rw [(Strings_perm _).mem_iff, ← AList.mem_keys, run_mem]
    simp [NewAESGCMStore]
  · intro h
    obtain ⟨blob, hb⟩ := Put_store_of_ok _ _ _ _ h
    have hn : n ≠ [] := by
      intro hn
      subst hn
      simp [aesgcmStore.Put, Result.exit] at h
    rw [hb]
    have hl : (AList.insert n blob (NewAESGCMStore.secrets)).lookup n = some blob :=
      AList.lookup_insert _
    have hd : (⟨AList.insert n blob NewAESGCMStore.secrets⟩ : aesgcmStore).Delete envDelete n =
        .exit ⟨(AList.insert n blob NewAESGCMStore.secrets).erase n⟩ (.ok ())
          ⟨envDelete.now, str "delete", n, true, [], []⟩ := by
      simp only [aesgcmStore.Delete, hn, hl, if_false]
    rw [hd]
    refine ⟨?_, rfl, ?_⟩
    · simp [List_eq, Result.exit, NewAESGCMStore, sort.Strings]
    · simp [List_eq, Result.exit, NewAESGCMStore, sort.Strings]

/-- C6, at the end-to-end scenario of `cloudmoor vault test`. -/
theorem C6_list_names_witness :
    ((NewAESGCMStore.Put zeroEnv (str "test-secret") (str "sensitive-password-123")).store.List
      zeroEnv).outcome = .ok [str "test-secret"] ∧
    ((NewAESGCMStore.Put zeroEnv (str "test-secret") (str "sensitive-password-123")).store.Delete
      zeroEnv (str "test-secret")).outcome = .ok () ∧
    (((NewAESGCMStore.Put zeroEnv (str "test-secret") (str "sensitive-password-123")).store.Delete
      zeroEnv (str "test-secret")).store.List zeroEnv).outcome = .ok [] :=
  (C6_list_names [] zeroEnv zeroEnv zeroEnv (str "test-secret") (str "sensitive-password-123")).2
    (by
      rw [Put_ok _ zeroEnv _ _ zeroKey (by decide) (by decide) rfl (by decide) (by decide)
        (by decide)]
      rfl)


/-! ## The audit event of a call -/

theorem Sprintf_v_v_ne_nil (a b : GoError) (h : a.msg ≠ []) : fmt.Sprintf_v_v a b ≠ [] := by
  simp [fmt.Sprintf_v_v, h]

/-- The event a call hands to the audit hook, against how the call ended. -/
theorem apply_event (c : Call) (s : aesgcmStore) (env : Env) :
    ∃ e, (c.apply s env).audit = [e] ∧ e.Operation = c.operation ∧ e.Timestamp = env.now ∧
      ((c.apply s env).outcome = .ok () → e.Success = true ∧ e.Error = []) ∧
      (∀ err, (c.apply s env).outcome = .err err →
        e.Success = false ∧ e.Error = err.msg ∧ e.Error ≠ []) ∧
      (∀ m, (c.apply s env).outcome = .panic m → e.Success = false ∧ e.Error = []) := by
  have h1 : ErrKeyEmpty.msg ≠ [] := by decide
  have h2 : ErrValueEmpty.msg ≠ [] := by decide
  have h3 : ErrNotFound.msg ≠ [] := by decide
  have h4 := fun b => Sprintf_v_v_ne_nil ErrKeyProvider b (by decide)
  have h5 := fun b => Sprintf_v_v_ne_nil ErrEncryption b (by decide)
  have h6 := fun b => Sprintf_v_v_ne_nil ErrDecryption b (by decide)
  have h7 := fun b => Sprintf_v_v_ne_nil ErrUnhealthy b (by decide)
  cases c <;>
    simp only [Call.apply, Result.void, aesgcmStore.Put, aesgcmStore.Get, aesgcmStore.Delete,
      aesgcmStore.List, aesgcmStore.HealthCheck, Result.exit] <;>
    (repeat' split) <;>
    simp [Outcome.void, Call.operation, fmt.Errorf_w_v, h1, h2, h3, h4, h5, h6, h7]


theorem run_audit (s : aesgcmStore) (calls : List (Env × Call)) :
    (run s calls).audit.map (fun e => (e.Operation, e.Timestamp)) =
      calls.map (fun ec => (ec.2.operation, ec.1.now)) := by
  induction calls generalizing s with
  | nil => rfl
  | cons ec rest ih =>
    obtain ⟨env, c⟩ := ec
    obtain ⟨e, he, hop, hts, _⟩ := apply_event c s env
    simp only [run, List.map_append, List.map_cons, ih, he]
    simp [hop, hts]

/-- C7: every call of `Put`, `Get`, `Delete`, `List` or `HealthCheck`, however
it ends, hands exactly one event to the audit hook; its operation is the name
of the call and its timestamp the clock reading of the call; a sequence of
calls leaves one event per call, in call order. -/
theorem C7_one_event_per_call (s : aesgcmStore) (env : Env) (c : Call)
    (calls : List (Env × Call)) :
    (∃ e, (c.apply s env).audit = [e] ∧ e.Operation = c.operation ∧ e.Timestamp = env.now) ∧
    (run s calls).audit.length = calls.length ∧
    (run s calls).audit.map (fun e => (e.Operation, e.Timestamp)) =
      calls.map (fun ec => (ec.2.operation, ec.1.now)) := by
  obtain ⟨e, he, hop, hts, _⟩ := apply_event c s env
  refine ⟨⟨e, he, hop, hts⟩, ?_, run_audit s calls⟩
  have := congrArg List.length (run_audit s calls)
  simpa using this

/-- C8: the event of a call has `Success = true` and an empty `Error` exactly
when the call returns no error (and `Success = true` alone already tells it);
when the call returns an error, the event has `Success = false` and its `Error`
is the text of that error, which is not empty. -/
theorem C8_event_success_and_error (s : aesgcmStore) (env : Env) (c : Call) :
    ∃ e, (c.apply s env).audit = [e] ∧
      ((e.Success = true ∧ e.Error = []) ↔ (c.apply s env).outcome = .ok ()) ∧
      (e.Success = true ↔ (c.apply s env).outcome = .ok ()) ∧
      (∀ err, (c.apply s env).outcome = .err err →
        e.Success = false ∧ e.Error ≠ [] ∧ e.Error = err.msg) := by
  obtain ⟨e, he, _, _, hok, herr, hpanic⟩ := apply_event c s env
  have hs : e.Success = true → (c.apply s env).outcome = .ok () := by
    intro h
    cases ho : (c.apply s env).outcome with
    | ok u => rfl
    | err err => exact absurd h (by simp [(herr err ho).1])
    | panic m => exact absurd h (by simp [(hpanic m ho).1])
  refine ⟨e, he, ⟨fun h => hs h.1, hok⟩, ⟨hs, fun h => (hok h).1⟩, fun err h => ?_⟩
  obtain ⟨h1, h2, h3⟩ := herr err h
  exact ⟨h1, h3, h2⟩

/-! ## Rotation of the master key -/

theorem encrypt_rand_error (rand : Reader) (key pt : Bytes) (hk : aes.KeyLength key)
    (hr : ¬ 12 ≤ rand.data.length) : aesgcmStore.encrypt rand key pt = .err rand.err := by
  simp [aesgcmStore.encrypt, NewCipher_eq key hk, cipher.NewGCM, cipher.GCM.NonceSize,
    io.ReadFull, hr]

/-- What a `Put` that returned no error under a key of valid length tells about
its inputs. -/
theorem Put_ok_inv (s : aesgcmStore) (env : Env) (key : GoString) (value masterKey : Bytes)
    (h : (s.Put env key value).outcome = .ok ()) (hg : env.keyProvider.GetKey = .ok masterKey)
    (hk : aes.KeyLength masterKey) :
    key ≠ [] ∧ value ≠ [] ∧ 12 ≤ env.rand.data.length ∧
      value.length ≤ cipher.gcmMaxPlaintext := by
  have hkey : key ≠ [] := by
    intro hkey
    simp [aesgcmStore.Put, Result.exit, hkey] at h
  have hv : value ≠ [] := by
    intro hv
    simp [aesgcmStore.Put, Result.exit, hkey, hv] at h
  have hv2 : ¬ value.length = 0 := by simpa using hv
  have hr : 12 ≤ env.rand.data.length := by
    by_contra hr
    simp [aesgcmStore.Put, Result.exit, hkey, hv2, hg, encrypt_rand_error _ _ _ hk hr] at h
  refine ⟨hkey, hv, hr, ?_⟩
  by_contra hsize
  rw [Put_panic s env key value masterKey hkey hg hk hr (by omega)] at h
  simp [Result.exit] at h

set_option maxRecDepth 1000000 in
/-- C9, counterexample: a 16-byte secret stored under the all-zero key with the
all-zero nonce; after the provider moves to the key 0, 1, …, 31 `Get` returns
no error but sixteen other bytes. -/
theorem C9_counterexample :
    countingKey ≠ zeroKey ∧ countingKey.length = 32 ∧
    (NewAESGCMStore.Put zeroEnv (str "rotate-test") collidingValue).outcome = .ok () ∧
    ((NewAESGCMStore.Put zeroEnv (str "rotate-test") collidingValue).store.Get countingEnv
      (str "rotate-test")).outcome =
      .ok [213, 110, 187, 235, 106, 186, 104, 31, 58, 98, 122, 220, 133, 3, 124, 14] := by
  decide

/-- C9 (amended): a secret stored under a 32-byte key, read after the provider
has moved to another 32-byte key. `Get` fails with an error that is
`ErrDecryption` whenever the tag of the stored ciphertext computed under the
new key differs from the stored tag; only when the two tags coincide does it
return bytes, the counter-mode decryption under the new key. -/
theorem C9_get_after_rotation (s : aesgcmStore) (envPut envGet : Env) (name : GoString)
    (value oldKey newKey nonce : Bytes)
    (hstored : (s.Put envPut name value).outcome = .ok ())
    (hput : envPut.keyProvider.GetKey = .ok oldKey) (hold : oldKey.length = 32)
    (hrand : io.ReadFull envPut.rand 12 = .ok nonce)
    (hget : envGet.keyProvider.GetKey = .ok newKey) (hnew : newKey.length = 32) :
    (fmt.Errorf_w_v ErrDecryption cipher.errOpen).Is .Decryption ∧
    ((gcmOf newKey).auth nonce ((gcmOf oldKey).counterCrypt nonce value) [] ≠
        (gcmOf oldKey).auth nonce ((gcmOf oldKey).counterCrypt nonce value) [] →
      ((s.Put envPut name value).store.Get envGet name).outcome =
        .err (fmt.Errorf_w_v ErrDecryption cipher.errOpen)) ∧
    ((gcmOf newKey).auth nonce ((gcmOf oldKey).counterCrypt nonce value) [] =
        (gcmOf oldKey).auth nonce ((gcmOf oldKey).counterCrypt nonce value) [] →
      ((s.Put envPut name value).store.Get envGet name).outcome =
        .ok ((gcmOf newKey).counterCrypt nonce ((gcmOf oldKey).counterCrypt nonce value))) := by
  have hko : aes.KeyLength oldKey := Or.inr (Or.inr hold)
  have hkn : aes.KeyLength newKey := Or.inr (Or.inr hnew)
  obtain ⟨hname, hvalue, hr, hsize⟩ := Put_ok_inv s envPut name value oldKey hstored hput hko
  obtain ⟨_, hnonce⟩ := ReadFull_ok _ _ _ hrand
  have hn : nonce.length = 12 := by simp [hnonce, hr]
  obtain ⟨hl, ht⟩ := sealed_lengths oldKey nonce value hko hn
  have hgetEq : ((s.Put envPut name value).store.Get envGet name) =
      match aesgcmStore.decrypt newKey (sealed oldKey nonce value) with
      | .err err =>
        .exit ⟨s.secrets.insert name (sealed oldKey nonce value)⟩
          (.err (fmt.Errorf_w_v ErrDecryption err))
          ⟨envGet.now, str "get", name, false, fmt.Sprintf_v_v ErrDecryption err, []⟩
      | .panic m =>
        .exit ⟨s.secrets.insert name (sealed oldKey nonce value)⟩ (.panic m)
          ⟨envGet.now, str "get", name, false, [], []⟩
      | .ok plaintext =>
        .exit ⟨s.secrets.insert name (sealed oldKey nonce value)⟩ (.ok plaintext)
          ⟨envGet.now, str "get", name, true, [],
            [(str "size", fmt.Sprintf_d plaintext.length)]⟩ := by
    rw [Put_ok s envPut name value oldKey hname hvalue hput hko hr hsize, ← hnonce]
    simp only [Result.exit]
    exact Get_eq_of_decrypt ⟨s.secrets.insert name _⟩ envGet name _ newKey hname
      (AList.lookup_insert _) hget
  have hdec := decrypt_eq newKey nonce _ _ hkn hn (by rw [hl]; exact hsize) ht
  refine ⟨rfl, fun hne => ?_, fun heq => ?_⟩
  · rw [hgetEq]
    unfold sealed
    rw [hdec, if_pos hne]
    rfl
  · rw [hgetEq]
    unfold sealed
    rw [hdec, if_neg (not_not.mpr heq)]
    rfl

set_option maxRecDepth 1000000 in
/-- C9 (amended), at the rotation test of `vault_test.go`: the secret
`important-secret` stored under the all-zero key is rejected under the key
0, 1, …, 31. -/
theorem C9_get_after_rotation_witness :
    (NewAESGCMStore.Put zeroEnv (str "rotate-test") (str "important-secret")).outcome = .ok () ∧
    ((NewAESGCMStore.Put zeroEnv (str "rotate-test") (str "important-secret")).store.Get
      countingEnv (str "rotate-test")).outcome =
      .err (fmt.Errorf_w_v ErrDecryption cipher.errOpen) :=
  ⟨by decide,
   (C9_get_after_rotation NewAESGCMStore zeroEnv countingEnv (str "rotate-test")
    (str "important-secret") zeroKey countingKey (List.replicate 12 0) (by decide) rfl
    (by decide) rfl rfl (by decide)).2.1 (by decide)⟩

/-- C10: a secret stored under the old 32-byte key; after the rotation the
stored blob decrypts under the old key, the plaintext encrypts under the new
32-byte key when the random source fills the nonce, and once that blob
replaces the stored one `Get` under the new key returns exactly the value
originally put. -/
theorem C10_reencrypt_after_rotation (s : aesgcmStore) (envPut envGet : Env) (rand : Reader)
    (name : GoString) (value oldKey newKey nonce : Bytes)
    (hstored : (s.Put envPut name value).outcome = .ok ())
    (hput : envPut.keyProvider.GetKey = .ok oldKey) (hold : oldKey.length = 32)
    (hget : envGet.keyProvider.GetKey = .ok newKey) (hnew : newKey.length = 32)
    (hrand : io.ReadFull rand 12 = .ok nonce) :
    ∃ blob plaintext reEncrypted,
      (s.Put envPut name value).store.secrets.lookup name = some blob ∧
      aesgcmStore.decrypt oldKey blob = .ok plaintext ∧
      aesgcmStore.encrypt rand newKey plaintext = .ok reEncrypted ∧
      ((⟨(s.Put envPut name value).store.secrets.insert name reEncrypted⟩ : aesgcmStore).Get
        envGet name).outcome = .ok value := by
  have hko : aes.KeyLength oldKey := Or.inr (Or.inr hold)
  have hkn : aes.KeyLength newKey := Or.inr (Or.inr hnew)
  obtain ⟨hname, hvalue, hr, hsize⟩ := Put_ok_inv s envPut name value oldKey hstored hput hko
  obtain ⟨hr2, hnonce⟩ := ReadFull_ok _ _ _ hrand
  have hn : (envPut.rand.data.take 12).length = 12 := by simp [hr]
  have hn2 : nonce.length = 12 := by simp [hnonce, hr2]
  refine ⟨sealed oldKey (envPut.rand.data.take 12) value, value, sealed newKey nonce value,
    ?_, ?_, ?_, ?_⟩
  · rw [Put_ok s envPut name value oldKey hname hvalue hput hko hr hsize]
    exact AList.lookup_insert _
  · exact decrypt_sealed oldKey _ value hko hn hsize
  · rw [encrypt_eq rand newKey value hkn hr2 hsize, ← hnonce]
  · rw [Get_eq_of_decrypt ⟨AList.insert name _ _⟩ envGet name _ newKey hname
      (AList.lookup_insert _) hget, decrypt_sealed newKey nonce value hkn hn2 hsize]
    rfl

/-- C10, at the re-encryption of `vault_test.go`. -/
theorem C10_reencrypt_after_rotation_witness :
    ∃ blob plaintext reEncrypted,
      (NewAESGCMStore.Put zeroEnv (str "rotate-test") (str "important-secret")).store.secrets.lookup
        (str "rotate-test") = some blob ∧
      aesgcmStore.decrypt zeroKey blob = .ok plaintext ∧
      aesgcmStore.encrypt countingEnv.rand countingKey plaintext = .ok reEncrypted ∧
      ((⟨(NewAESGCMStore.Put zeroEnv (str "rotate-test")
          (str "important-secret")).store.secrets.insert (str "rotate-test") reEncrypted⟩ :
        aesgcmStore).Get countingEnv (str "rotate-test")).outcome = .ok (str "important-secret") :=
  C10_reencrypt_after_rotation NewAESGCMStore zeroEnv countingEnv countingEnv.rand
    (str "rotate-test") (str "important-secret") zeroKey countingKey (List.replicate 12 0)
    (by decide) rfl (by decide) rfl (by decide) rfl

/-! ## Key providers -/

theorem ReadFull_length (r : Reader) (n : Nat) (bs : Bytes) (h : io.ReadFull r n = .ok bs) :
    bs.length = n := by
  obtain ⟨hn, hb⟩ := ReadFull_ok r n bs h
  simp [hb, hn]

theorem InMemory_RotateKey_ok (p : InMemoryKeyProvider) (rand : Reader) (drawn : Bytes)
    (h : io.ReadFull rand 32 = .ok drawn) :
    p.RotateKey rand = (⟨drawn⟩, .ok (p.key, drawn)) := by
  simp [InMemoryKeyProvider.RotateKey, h]

theorem InMemory_RotateKey_error (p : InMemoryKeyProvider) (rand : Reader) (err : GoError)
    (h : io.ReadFull rand 32 = .error err) :
    p.RotateKey rand = (p, .error (fmt.Errorf_w "failed to generate new key: " err)) := by
  simp [InMemoryKeyProvider.RotateKey, h]

theorem InMemory_RotateKey_length (p : InMemoryKeyProvider) (rand : Reader)
    (h : p.key.length = 32) : (p.RotateKey rand).1.key.length = 32 := by
  cases hr : io.ReadFull rand 32 with
  | error err => rw [InMemory_RotateKey_error p rand err hr]; exact h
  | ok drawn => rw [InMemory_RotateKey_ok p rand drawn hr]; exact ReadFull_length _ _ _ hr

theorem rotations_length (p : InMemoryKeyProvider) (rands : List Reader)
    (h : p.key.length = 32) : (p.rotations rands).key.length = 32 := by
  induction rands generalizing p with
  | nil => exact h
  | cons rand rest ih =>
    exact ih _ (InMemory_RotateKey_length p rand h)

/-- C11: for the in-memory provider, when the random source fills the 32
bytes, `RotateKey` returns the key `GetKey` returned before it together with
the bytes just drawn, and `GetKey` returns those bytes from then on; when the
random source fails, `RotateKey` returns an error and the provider is as it
was. -/
theorem C11_inmemory_rotate (p : InMemoryKeyProvider) (rand : Reader) :
    (∀ drawn, io.ReadFull rand 32 = .ok drawn →
      ∃ old, p.GetKey = .ok old ∧ (p.RotateKey rand).2 = .ok (old, drawn) ∧
        drawn = rand.data.take 32 ∧ drawn.length = 32 ∧
        (p.RotateKey rand).1.GetKey = .ok drawn) ∧
    (∀ err, io.ReadFull rand 32 = .error err →
      (∃ e, (p.RotateKey rand).2 = .error e) ∧ (p.RotateKey rand).1 = p ∧
        (p.RotateKey rand).1.GetKey = p.GetKey) := by
  constructor
  · intro drawn h
    refine ⟨p.key, rfl, ?_, (ReadFull_ok _ _ _ h).2, ReadFull_length _ _ _ h, ?_⟩
    · rw [InMemory_RotateKey_ok p rand drawn h]
    · rw [InMemory_RotateKey_ok p rand drawn h]
      rfl
  · intro err h
    rw [InMemory_RotateKey_error p rand err h]
    exact ⟨⟨_, rfl⟩, rfl, rfl⟩

/-- C11, at a provider holding the all-zero key and a random source that
delivers 0, 1, …, 31. -/
theorem C11_inmemory_rotate_witness :
    ∃ old, (⟨zeroKey⟩ : InMemoryKeyProvider).GetKey = .ok old ∧
      ((⟨zeroKey⟩ : InMemoryKeyProvider).RotateKey countingReader).2 = .ok (old, countingKey) ∧
      countingKey = countingReader.data.take 32 ∧ countingKey.length = 32 ∧
      ((⟨zeroKey⟩ : InMemoryKeyProvider).RotateKey countingReader).1.GetKey = .ok countingKey :=
  (C11_inmemory_rotate ⟨zeroKey⟩ countingReader).1 countingKey rfl


theorem backupPath_ne (p : FileKeyProvider) : p.keyPath ++ str ".bak" ≠ p.keyPath := by
  intro h
  have := congrArg List.length h
  simp [str, utf8] at this

theorem File_GetKey_ok_iff (p : FileKeyProvider) (fs : FileSystem) (k : Bytes) :
    p.GetKey fs = .ok k ↔
      fs.readErr p.keyPath = none ∧ fs.files p.keyPath = some k ∧ k.length = 32 := by
  unfold FileKeyProvider.GetKey os.ReadFile
  cases h1 : fs.readErr p.keyPath with
  | some e => simp
  | none =>
    cases h2 : fs.files p.keyPath with
    | none => simp
    | some data =>
      by_cases h3 : data.length = 32
      · simp only [h3, ne_eq, not_true_eq_false, if_false, Except.ok.injEq, Option.some.injEq,
          true_and]
        constructor
        · rintro rfl; exact ⟨rfl, h3⟩
        · rintro ⟨rfl, _⟩; rfl
      · simp only [ne_eq, h3, not_false_eq_true, if_true, Option.some.injEq, true_and]
        constructor
        · intro h; exact absurd h (by simp)
        · rintro ⟨rfl, h4⟩; exact absurd h4 h3

/-- The five ways a rotation of the file-backed provider can go. -/
theorem File_RotateKey_cases (p : FileKeyProvider) (fs : FileSystem) (rand : Reader) :
    ((∃ e, p.GetKey fs = .error e) ∧ (p.RotateKey fs rand).states = [fs] ∧
      (p.RotateKey fs rand).final = fs ∧ ∃ e, (p.RotateKey fs rand).out = .error e) ∨
    ((∃ e, io.ReadFull rand 32 = .error e) ∧ (p.RotateKey fs rand).states = [fs] ∧
      (p.RotateKey fs rand).final = fs ∧ ∃ e, (p.RotateKey fs rand).out = .error e) ∨
    (∃ old new, p.GetKey fs = .ok old ∧ io.ReadFull rand 32 = .ok new ∧
      ((∃ f, fs.writeErr p.backupPath = some f ∧
          (p.RotateKey fs rand).states = [fs, fs.put p.backupPath f.2] ∧
          (p.RotateKey fs rand).final = fs.put p.backupPath f.2 ∧
          ∃ e, (p.RotateKey fs rand).out = .error e) ∨
       (fs.writeErr p.backupPath = none ∧ ∃ f, fs.writeErr p.keyPath = some f ∧
          (p.RotateKey fs rand).states =
            [fs, fs.put p.backupPath (some old),
              (fs.put p.backupPath (some old)).put p.keyPath f.2] ∧
          (p.RotateKey fs rand).final = (fs.put p.backupPath (some old)).put p.keyPath f.2 ∧
          ∃ e, (p.RotateKey fs rand).out = .error e) ∨
       (fs.writeErr p.backupPath = none ∧ fs.writeErr p.keyPath = none ∧
          (p.RotateKey fs rand).states =
            [fs, fs.put p.backupPath (some old),
              (fs.put p.backupPath (some old)).put p.keyPath (some new)] ∧
          (p.RotateKey fs rand).final =
            (fs.put p.backupPath (some old)).put p.keyPath (some new) ∧
          (p.RotateKey fs rand).out = .ok (old, new)))) := by
  cases hg : p.GetKey fs with
  | error e => left; simp [FileKeyProvider.RotateKey, hg]
  | ok old =>
    cases hr : io.ReadFull rand 32 with
    | error e => right; left; simp [FileKeyProvider.RotateKey, hg, hr]
    | ok new =>
      right; right
      refine ⟨old, new, rfl, rfl, ?_⟩
      cases hb : fs.writeErr p.backupPath with
      | some f =>
        left
        unfold FileKeyProvider.backupPath at hb
        obtain ⟨e, residue⟩ := f
        simp [FileKeyProvider.RotateKey, FileKeyProvider.backupPath, os.WriteFile, hg, hr, hb]
      | none =>
        right
        unfold FileKeyProvider.backupPath at hb
        have hb2 : ∀ c, (fs.put (p.keyPath ++ str ".bak") c).writeErr p.keyPath =
            fs.writeErr p.keyPath := fun _ => rfl
        cases hp : fs.writeErr p.keyPath with
        | some f =>
          left
          obtain ⟨e, residue⟩ := f
          simp [FileKeyProvider.RotateKey, FileKeyProvider.backupPath, os.WriteFile, hg, hr, hb,
            hb2, hp]
        | none =>
          right
          simp [FileKeyProvider.RotateKey, FileKeyProvider.backupPath, os.WriteFile, hg, hr, hb,
            hb2, hp]


theorem put_files_same (fs : FileSystem) (name : GoString) (c : Option Bytes) :
    (fs.put name c).files name = c := by
  simp [FileSystem.put]

theorem put_files_other (fs : FileSystem) (name other : GoString) (c : Option Bytes)
    (h : other ≠ name) : (fs.put name c).files other = fs.files other := by
  simp [FileSystem.put, Function.update, h]

theorem File_RotateKey_ok_inv (p : FileKeyProvider) (fs : FileSystem) (rand : Reader)
    (old new : Bytes) (h : (p.RotateKey fs rand).out = .ok (old, new)) :
    p.GetKey fs = .ok old ∧ io.ReadFull rand 32 = .ok new ∧
      (p.RotateKey fs rand).states =
        [fs, fs.put p.backupPath (some old),
          (fs.put p.backupPath (some old)).put p.keyPath (some new)] ∧
      (p.RotateKey fs rand).final =
        (fs.put p.backupPath (some old)).put p.keyPath (some new) := by
  rcases File_RotateKey_cases p fs rand with ⟨_, _, _, e, he⟩ | ⟨_, _, _, e, he⟩ |
    ⟨o, n, hg, hr, ⟨f, _, _, _, e, he⟩ | ⟨_, f, _, _, _, e, he⟩ | ⟨_, _, hs, hf, ho⟩⟩
  · rw [he] at h; exact absurd h (by simp)
  · rw [he] at h; exact absurd h (by simp)
  · rw [he] at h; exact absurd h (by simp)
  · rw [he] at h; exact absurd h (by simp)
  · rw [ho] at h
    injection h with h
    injection h with h1 h2
    subst h1 h2
    exact ⟨hg, hr, hs, hf⟩

/-- C12, counterexample: an in-memory provider built with the all-zero key,
and a file-backed provider whose key file holds it, both rotated with a random
source that delivers 32 zero bytes: `RotateKey` returns without error and the
old and the new key are equal. -/
theorem C12_counterexample :
    NewInMemoryKeyProviderWithKey zeroKey = .ok ⟨zeroKey⟩ ∧
    ((⟨zeroKey⟩ : InMemoryKeyProvider).RotateKey zeroReader).2 = .ok (zeroKey, zeroKey) ∧
    ((⟨str "vault.key"⟩ : FileKeyProvider).RotateKey (.single (str "vault.key") zeroKey)
      zeroReader).out = .ok (zeroKey, zeroKey) := by
  refine ⟨rfl, rfl, ?_⟩
  rcases File_RotateKey_cases ⟨str "vault.key"⟩ (.single (str "vault.key") zeroKey) zeroReader
    with ⟨⟨e, he⟩, _⟩ | ⟨⟨e, he⟩, _⟩ |
      ⟨o, n, hg, hr, ⟨f, hf, _⟩ | ⟨_, f, hf, _⟩ | ⟨_, _, _, _, ho⟩⟩
  · have : (⟨str "vault.key"⟩ : FileKeyProvider).GetKey (.single (str "vault.key") zeroKey) =
        .ok zeroKey := by
      rw [File_GetKey_ok_iff]; exact ⟨rfl, by simp [FileSystem.single], by decide⟩
    rw [this] at he; exact absurd he (by simp)
  · exact absurd he (by simp [io.ReadFull, zeroReader])
  · exact absurd hf (by simp [FileSystem.single])
  · exact absurd hf (by simp [FileSystem.single])
  · have hg2 := (File_GetKey_ok_iff _ _ _).mp hg
    have ho2 : o = zeroKey := by
      have := hg2.2.1
      simp [FileSystem.single] at this
      exact this.symm
    have hn2 : n = zeroKey := by
      have := (ReadFull_ok _ _ _ hr).2
      rw [this]
      decide
    rw [ho, ho2, hn2]

/-- C12 (amended): whenever `RotateKey` of either provider returns
`(old, new)` without error, `old` is the key held before the call (the field
of the in-memory provider, the content of the key file), `new` is the 32 bytes
just read from the random source, and `old ≠ new` exactly when those bytes
differ from the key held. -/
theorem C12_rotate_old_new (p : InMemoryKeyProvider) (fp : FileKeyProvider) (fs : FileSystem)
    (rand : Reader) (old new : Bytes) :
    ((p.RotateKey rand).2 = .ok (old, new) →
      old = p.key ∧ new = rand.data.take 32 ∧ new.length = 32 ∧
        (old ≠ new ↔ rand.data.take 32 ≠ p.key)) ∧
    ((fp.RotateKey fs rand).out = .ok (old, new) →
      fs.files fp.keyPath = some old ∧ new = rand.data.take 32 ∧ new.length = 32 ∧
        (old ≠ new ↔ rand.data.take 32 ≠ old)) := by
  constructor
  · intro h
    cases hr : io.ReadFull rand 32 with
    | error err =>
      rw [InMemory_RotateKey_error p rand err hr] at h
      exact absurd h (by simp)
    | ok drawn =>
      rw [InMemory_RotateKey_ok p rand drawn hr] at h
      injection h with h
      injection h with h1 h2
      subst h1 h2
      obtain ⟨_, hd⟩ := ReadFull_ok _ _ _ hr
      refine ⟨rfl, hd, ReadFull_length _ _ _ hr, ?_⟩
      rw [← hd]
      exact ⟨fun h => Ne.symm h, fun h => Ne.symm h⟩
  · intro h
    obtain ⟨hg, hr, _, _⟩ := File_RotateKey_ok_inv fp fs rand old new h
    obtain ⟨_, hd⟩ := ReadFull_ok _ _ _ hr
    refine ⟨((File_GetKey_ok_iff _ _ _).mp hg).2.1, hd, ReadFull_length _ _ _ hr, ?_⟩
    rw [← hd]
    exact ⟨fun h => Ne.symm h, fun h => Ne.symm h⟩

/-- C12 (amended), at the in-memory provider holding the all-zero key and a
random source that delivers 0, 1, …, 31: the keys returned differ. -/
theorem C12_rotate_old_new_witness :
    zeroKey = (⟨zeroKey⟩ : InMemoryKeyProvider).key ∧ countingKey = countingReader.data.take 32 ∧
      countingKey.length = 32 ∧ (zeroKey ≠ countingKey ↔ countingReader.data.take 32 ≠ zeroKey) :=
  (C12_rotate_old_new ⟨zeroKey⟩ ⟨str "vault.key"⟩ (.single (str "vault.key") zeroKey)
    countingReader zeroKey countingKey).1 rfl

/-- C13: a key the file-backed `GetKey` returns is 32 bytes long, and it
returns an error whenever the key file holds another number of bytes;
`NewInMemoryKeyProviderWithKey` returns an error exactly when the key given is
not 32 bytes long; an in-memory provider built by either constructor holds,
after any number of `RotateKey` calls, a key of 32 bytes that `GetKey` returns,
and its `HealthCheck` succeeds. -/
theorem C13_keys_are_32_bytes (fp : FileKeyProvider) (fs : FileSystem) (key : Bytes)
    (rand : Reader) (rands : List Reader) :
    (∀ k, fp.GetKey fs = .ok k → k.length = 32) ∧
    (∀ content, os.ReadFile fs fp.keyPath = .ok content → content.length ≠ 32 →
      ∃ e, fp.GetKey fs = .error e) ∧
    ((∃ e, NewInMemoryKeyProviderWithKey key = .error e) ↔ key.length ≠ 32) ∧
    (∀ q, NewInMemoryKeyProvider rand = .ok q ∨ NewInMemoryKeyProviderWithKey key = .ok q →
      ∃ k, (q.rotations rands).GetKey = .ok k ∧ k.length = 32 ∧
        (q.rotations rands).HealthCheck = none) := by
  refine ⟨fun k h => ((File_GetKey_ok_iff _ _ _).mp h).2.2, fun content hc hne => ?_, ?_, ?_⟩
  · simp [FileKeyProvider.GetKey, hc, hne]
  · by_cases h : key.length = 32 <;> simp [NewInMemoryKeyProviderWithKey, h]
  · intro q hq
    have hlen : q.key.length = 32 := by
      rcases hq with hq | hq
      · unfold NewInMemoryKeyProvider at hq
        cases hr : io.ReadFull rand 32 with
        | error err => rw [hr] at hq; exact absurd hq (by simp)
        | ok drawn =>
          rw [hr] at hq
          injection hq with hq
          subst hq
          exact ReadFull_length _ _ _ hr
      · unfold NewInMemoryKeyProviderWithKey at hq
        by_cases h : key.length = 32
        · simp only [h, ne_eq, not_true_eq_false, if_false] at hq
          injection hq with hq
          subst hq
          exact h
        · simp [h] at hq
    have := rotations_length q rands hlen
    exact ⟨_, rfl, this, by simp [InMemoryKeyProvider.HealthCheck, this]⟩

/-- C13, at the provider built with the all-zero key and rotated three times,
the second time with a random source that fails. -/
theorem C13_keys_are_32_bytes_witness :
    ∃ k, ((⟨zeroKey⟩ : InMemoryKeyProvider).rotations
        [countingReader, failingReader, zeroReader]).GetKey = .ok k ∧ k.length = 32 ∧
      ((⟨zeroKey⟩ : InMemoryKeyProvider).rotations
        [countingReader, failingReader, zeroReader]).HealthCheck = none :=
  (C13_keys_are_32_bytes ⟨str "vault.key"⟩ (.single (str "vault.key") zeroKey) zeroKey
    zeroReader [countingReader, failingReader, zeroReader]).2.2.2 ⟨zeroKey⟩ (Or.inr rfl)


theorem put_readErr (fs : FileSystem) (name : GoString) (c : Option Bytes) :
    (fs.put name c).readErr = fs.readErr := rfl

/-- C18: with the file system a map from path to bytes. A rotation of the
file-backed provider that succeeds returns the previous content of the key
path as `old`, leaves the backup path holding `old` and the key path holding
the 32-byte `new`, and the next `GetKey` returns `new`; the state between the
two writes has the backup holding `old` and the key path still holding `old`.
When the backup write fails, the rotation returns an error and the key path
still holds `old`. In every state the file system goes through, the key path
or the backup path holds what the key path held at the start. -/
theorem C18_file_rotate (p : FileKeyProvider) (fs : FileSystem) (rand : Reader)
    (old new : Bytes) :
    ((p.RotateKey fs rand).out = .ok (old, new) →
      fs.files p.keyPath = some old ∧
      (p.RotateKey fs rand).final.files p.backupPath = some old ∧
      (p.RotateKey fs rand).final.files p.keyPath = some new ∧ new.length = 32 ∧
      p.GetKey (p.RotateKey fs rand).final = .ok new ∧
      ∃ between, (p.RotateKey fs rand).states = [fs, between, (p.RotateKey fs rand).final] ∧
        between.files p.backupPath = some old ∧ between.files p.keyPath = some old) ∧
    (p.GetKey fs = .ok old → io.ReadFull rand 32 = .ok new →
      (∃ f, fs.writeErr p.backupPath = some f) →
      (∃ e, (p.RotateKey fs rand).out = .error e) ∧
        (p.RotateKey fs rand).final.files p.keyPath = some old) ∧
    (fs.files p.keyPath = some old →
      ∀ state ∈ (p.RotateKey fs rand).states,
        state.files p.keyPath = some old ∨ state.files p.backupPath = some old) := by
  have hne : p.backupPath ≠ p.keyPath := backupPath_ne p
  refine ⟨fun h => ?_, fun hg hr hw => ?_, fun hold state hs => ?_⟩
  · obtain ⟨hg, hr, hs, hf⟩ := File_RotateKey_ok_inv p fs rand old new h
    obtain ⟨hre, hfile, _⟩ := (File_GetKey_ok_iff _ _ _).mp hg
    have hlen := ReadFull_length _ _ _ hr
    rw [hf]
    refine ⟨hfile, ?_, put_files_same _ _ _, hlen, ?_, _, hs, put_files_same _ _ _, ?_⟩
    · rw [put_files_other _ _ _ _ hne, put_files_same]
    · rw [File_GetKey_ok_iff]
      exact ⟨hre, put_files_same _ _ _, hlen⟩
    · rw [put_files_other _ _ _ _ hne.symm, hfile]
  · obtain ⟨_, hfile, _⟩ := (File_GetKey_ok_iff _ _ _).mp hg
    rcases File_RotateKey_cases p fs rand with ⟨⟨e, he⟩, _⟩ | ⟨⟨e, he⟩, _⟩ |
      ⟨o, n, _, _, ⟨f, _, _, hf, e, he⟩ | ⟨hb, _⟩ | ⟨hb, _⟩⟩
    · rw [hg] at he; exact absurd he (by simp)
    · rw [hr] at he; exact absurd he (by simp)
    · refine ⟨⟨e, he⟩, ?_⟩
      rw [hf, put_files_other _ _ _ _ hne.symm, hfile]
    · obtain ⟨f, hf⟩ := hw
      rw [hb] at hf; exact absurd hf (by simp)
    · obtain ⟨f, hf⟩ := hw
      rw [hb] at hf; exact absurd hf (by simp)
  · rcases File_RotateKey_cases p fs rand with ⟨_, hst, _⟩ | ⟨_, hst, _⟩ |
      ⟨o, n, hg, _, ⟨f, _, hst, _⟩ | ⟨_, f, _, hst, _⟩ | ⟨_, _, hst, _⟩⟩
    · rw [hst] at hs
      simp only [List.mem_singleton] at hs
      subst hs
      exact Or.inl hold
    · rw [hst] at hs
      simp only [List.mem_singleton] at hs
      subst hs
      exact Or.inl hold
    · rw [hst] at hs
      simp only [List.mem_cons, List.mem_singleton, List.not_mem_nil, or_false] at hs
      rcases hs with rfl | rfl
      · exact Or.inl hold
      · left; rw [put_files_other _ _ _ _ hne.symm, hold]
    · have ho : o = old := by
        have := ((File_GetKey_ok_iff _ _ _).mp hg).2.1
        rw [hold] at this
        injection this with this
        exact this.symm
      subst ho
      rw [hst] at hs
      simp only [List.mem_cons, List.mem_singleton, List.not_mem_nil, or_false] at hs
      rcases hs with rfl | rfl | rfl
      · exact Or.inl hold
      · right; exact put_files_same _ _ _
      · right; rw [put_files_other _ _ _ _ hne, put_files_same]
    · have ho : o = old := by
        have := ((File_GetKey_ok_iff _ _ _).mp hg).2.1
        rw [hold] at this
        injection this with this
        exact this.symm
      subst ho
      rw [hst] at hs
      simp only [List.mem_cons, List.mem_singleton, List.not_mem_nil, or_false] at hs
      rcases hs with rfl | rfl | rfl
      · exact Or.inl hold
      · right; exact put_files_same _ _ _
      · right; rw [put_files_other _ _ _ _ hne, put_files_same]


/-- C18, at a file system with the all-zero key in `vault.key` and a random
source that delivers 0, 1, …, 31. -/
theorem C18_file_rotate_witness :
    (FileSystem.single (str "vault.key") zeroKey).files (str "vault.key") = some zeroKey ∧
    ((⟨str "vault.key"⟩ : FileKeyProvider).RotateKey (.single (str "vault.key") zeroKey)
      countingReader).final.files (str "vault.key.bak") = some zeroKey ∧
    ((⟨str "vault.key"⟩ : FileKeyProvider).RotateKey (.single (str "vault.key") zeroKey)
      countingReader).final.files (str "vault.key") = some countingKey ∧
    (⟨str "vault.key"⟩ : FileKeyProvider).GetKey
      ((⟨str "vault.key"⟩ : FileKeyProvider).RotateKey (.single (str "vault.key") zeroKey)
        countingReader).final = .ok countingKey :=
  have h := (C18_file_rotate ⟨str "vault.key"⟩ (.single (str "vault.key") zeroKey) countingReader
    zeroKey countingKey).1 rfl
  ⟨h.1, h.2.1, h.2.2.1, h.2.2.2.2.1⟩

/-! ## `encrypt` and `decrypt`, inverted -/

theorem encrypt_ok_inv (rand : Reader) (key pt blob : Bytes)
    (h : aesgcmStore.encrypt rand key pt = .ok blob) :
    aes.KeyLength key ∧ 12 ≤ rand.data.length ∧ pt.length ≤ cipher.gcmMaxPlaintext ∧
      blob = sealed key (rand.data.take 12) pt := by
  by_cases hk : aes.KeyLength key
  · by_cases hr : 12 ≤ rand.data.length
    · by_cases hpt : pt.length ≤ cipher.gcmMaxPlaintext
      · rw [encrypt_eq rand key pt hk hr hpt] at h
        injection h with h
        exact ⟨hk, hr, hpt, h.symm⟩
      · rw [encrypt_panic rand key pt hk hr (by omega)] at h
        exact absurd h (by simp)
    · rw [encrypt_rand_error rand key pt hk hr] at h
      exact absurd h (by simp)
  · simp [aesgcmStore.encrypt, NewCipher_error key hk] at h

theorem sealed_length (key nonce pt : Bytes) (hk : aes.KeyLength key) (hn : nonce.length = 12) :
    (sealed key nonce pt).length = pt.length + 28 := by
  obtain ⟨hl, ht⟩ := sealed_lengths key nonce pt hk hn
  simp only [sealed, List.length_append, hl, ht, hn]
  omega

/-- C14: a successful `encrypt` returns `nonce ‖ ciphertext ‖ tag`, where the
nonce is the 12 bytes `io.ReadFull` drew from the random source in this call,
the ciphertext is as long as the plaintext and the tag is 16 bytes; the blob
has the length of the plaintext plus 28. -/
theorem C14_encrypt_shape (rand : Reader) (key p blob : Bytes)
    (h : aesgcmStore.encrypt rand key p = .ok blob) :
    ∃ nonce ciphertext tag, io.ReadFull rand 12 = .ok nonce ∧ nonce.length = 12 ∧
      ciphertext = (gcmOf key).counterCrypt nonce p ∧
      tag = (gcmOf key).auth nonce ciphertext [] ∧
      blob = nonce ++ ciphertext ++ tag ∧ ciphertext.length = p.length ∧ tag.length = 16 ∧
      blob.length = p.length + 28 ∧ p.length < blob.length := by
  obtain ⟨hk, hr, _, hb⟩ := encrypt_ok_inv rand key p blob h
  have hn : (rand.data.take 12).length = 12 := by simp [hr]
  obtain ⟨hl, ht⟩ := sealed_lengths key _ p hk hn
  have hlen := sealed_length key _ p hk hn
  refine ⟨rand.data.take 12, _, _, ReadFull_eq rand 12 hr, hn, rfl, rfl, hb, hl, ht, ?_, ?_⟩
  · rw [hb, hlen]
  · rw [hb, hlen]; omega

/-- C14, at the plaintext `sensitive data` of `vault_test.go`. -/
theorem C14_encrypt_shape_witness :
    ∃ nonce ciphertext tag, io.ReadFull zeroEnv.rand 12 = .ok nonce ∧ nonce.length = 12 ∧
      ciphertext = (gcmOf zeroKey).counterCrypt nonce (str "sensitive data") ∧
      tag = (gcmOf zeroKey).auth nonce ciphertext [] ∧
      sealed zeroKey (List.replicate 12 0) (str "sensitive data") = nonce ++ ciphertext ++ tag ∧
      ciphertext.length = (str "sensitive data").length ∧ tag.length = 16 ∧
      (sealed zeroKey (List.replicate 12 0) (str "sensitive data")).length =
        (str "sensitive data").length + 28 ∧
      (str "sensitive data").length <
        (sealed zeroKey (List.replicate 12 0) (str "sensitive data")).length :=
  C14_encrypt_shape zeroEnv.rand zeroKey (str "sensitive data") _
    (encrypt_eq zeroEnv.rand zeroKey (str "sensitive data") (by decide) (by decide) (by decide))

/-- C15, counterexample: under the all-zero 32-byte key, with a random source
that fills the nonce, `encrypt` of a plaintext of `2^36 - 31` bytes returns no
blob to decrypt: `Seal` panics. -/
theorem C15_counterexample :
    aes.KeyLength zeroKey ∧ io.ReadFull zeroEnv.rand 12 = .ok (List.replicate 12 0) ∧
    aesgcmStore.encrypt zeroEnv.rand zeroKey oversized =
      .panic (str "crypto/cipher: message too large for GCM") :=
  ⟨by decide, rfl,
    encrypt_panic zeroEnv.rand zeroKey oversized (by decide) (by decide)
      (by rw [show oversized.length = cipher.gcmMaxPlaintext + 1 from List.length_replicate _ _]
          omega)⟩

/-- C15 (amended): for every key of 16, 24 or 32 bytes, every plaintext of at
most `(2^32 - 2) * 16` bytes, the empty one included, and every nonce the
random source supplies, `encrypt` returns a blob and `decrypt` of that blob
under the same key returns exactly the plaintext. -/
theorem C15_decrypt_encrypt (rand : Reader) (key p nonce : Bytes) (hkey : aes.KeyLength key)
    (hsize : p.length ≤ cipher.gcmMaxPlaintext) (hrand : io.ReadFull rand 12 = .ok nonce) :
    ∃ blob, aesgcmStore.encrypt rand key p = .ok blob ∧ aesgcmStore.decrypt key blob = .ok p := by
  obtain ⟨hr, _⟩ := ReadFull_ok _ _ _ hrand
  have hn : (rand.data.take 12).length = 12 := by simp [hr]
  exact ⟨_, encrypt_eq rand key p hkey hr hsize, decrypt_sealed key _ p hkey hn hsize⟩

/-- C15 (amended), at the empty plaintext. -/
theorem C15_decrypt_encrypt_witness :
    ∃ blob, aesgcmStore.encrypt zeroEnv.rand zeroKey [] = .ok blob ∧
      aesgcmStore.decrypt zeroKey blob = .ok [] :=
  C15_decrypt_encrypt zeroEnv.rand zeroKey [] (List.replicate 12 0) (by decide) (by decide) rfl


/-! ## Failures of the key provider -/

theorem Errorf_w_v_suffix (a cause : GoError) : cause.msg <:+ (fmt.Errorf_w_v a cause).msg :=
  List.suffix_append _ _

/-- C16: `HealthCheck` of the store returns no error exactly when the
provider's `HealthCheck` succeeds and its `GetKey` then succeeds; otherwise it
returns an error that is `ErrUnhealthy` and whose text ends with the text of
the cause (the provider's `HealthCheck` error, or else its `GetKey` error); the
secret map is never changed. -/
theorem C16_store_health_check (s : aesgcmStore) (env : Env) :
    ((s.HealthCheck env).outcome = .ok () ↔
      env.keyProvider.HealthCheck = none ∧ ∃ key, env.keyProvider.GetKey = .ok key) ∧
    ((s.HealthCheck env).outcome ≠ .ok () →
      ∃ e cause, (s.HealthCheck env).outcome = .err e ∧ e.Is .Unhealthy ∧ cause.msg <:+ e.msg ∧
        (env.keyProvider.HealthCheck = some cause ∨
          (env.keyProvider.HealthCheck = none ∧ env.keyProvider.GetKey = .error cause))) ∧
    (s.HealthCheck env).store = s := by
  refine ⟨?_, ?_, HealthCheck_store s env⟩
  · cases hh : env.keyProvider.HealthCheck with
    | some err => simp [aesgcmStore.HealthCheck, Result.exit, hh]
    | none =>
      cases hg : env.keyProvider.GetKey with
      | error err => simp [aesgcmStore.HealthCheck, Result.exit, hh, hg]
      | ok key => simp [aesgcmStore.HealthCheck, Result.exit, hh, hg]
  · intro hne
    cases hh : env.keyProvider.HealthCheck with
    | some err =>
      exact ⟨fmt.Errorf_w_v ErrUnhealthy err, err,
        by simp [aesgcmStore.HealthCheck, Result.exit, hh], rfl, Errorf_w_v_suffix _ _,
        Or.inl rfl⟩
    | none =>
      cases hg : env.keyProvider.GetKey with
      | error err =>
        exact ⟨fmt.Errorf_w_v ErrUnhealthy err, err,
          by simp [aesgcmStore.HealthCheck, Result.exit, hh, hg], rfl, Errorf_w_v_suffix _ _,
          Or.inr ⟨rfl, rfl⟩⟩
      | ok key =>
        exact absurd (by simp [aesgcmStore.HealthCheck, Result.exit, hh, hg]) hne

/-- C16, at the failing provider of `vault_test.go`. -/
theorem C16_store_health_check_witness :
    ∃ e cause, (NewAESGCMStore.HealthCheck failingEnv).outcome = .err e ∧ e.Is .Unhealthy ∧
      cause.msg <:+ e.msg ∧
      (failingEnv.keyProvider.HealthCheck = some cause ∨
        (failingEnv.keyProvider.HealthCheck = none ∧
          failingEnv.keyProvider.GetKey = .error cause)) :=
  (C16_store_health_check NewAESGCMStore failingEnv).2.1 (by decide)

/-! ## The blobs of a reachable store -/

theorem Put_cases_encrypt (s : aesgcmStore) (env : Env) (key : GoString) (value : Bytes) :
    (s.Put env key value).store = s ∨
    ∃ masterKey blob, key ≠ [] ∧ value ≠ [] ∧ env.keyProvider.GetKey = .ok masterKey ∧
      aesgcmStore.encrypt env.rand masterKey value = .ok blob ∧
      (s.Put env key value).store = ⟨s.secrets.insert key blob⟩ := by
  by_cases hk : key = []
  · left; simp [aesgcmStore.Put, Result.exit, hk]
  by_cases hv : value.length = 0
  · left; simp [aesgcmStore.Put, Result.exit, hk, hv]
  cases hg : env.keyProvider.GetKey with
  | error e => left; simp [aesgcmStore.Put, Result.exit, hk, hv, hg]
  | ok masterKey =>
    cases he : aesgcmStore.encrypt env.rand masterKey value with
    | err e => left; simp [aesgcmStore.Put, Result.exit, hk, hv, hg, he]
    | panic m => left; simp [aesgcmStore.Put, Result.exit, hk, hv, hg, he]
    | ok blob =>
      right
      refine ⟨masterKey, blob, hk, ?_, rfl, he, by simp [aesgcmStore.Put, Result.exit, hk, hv, hg, he]⟩
      intro h
      exact hv (by simp [h])

theorem Delete_store_cases (s : aesgcmStore) (env : Env) (key : GoString) :
    (s.Delete env key).store = s ∨ (s.Delete env key).store = ⟨s.secrets.erase key⟩ := by
  rcases Delete_cases s env key with ⟨h, _⟩ | ⟨_, h, _⟩
  · exact Or.inl h
  · exact Or.inr h

/-- A blob found after a call was there before, or the call is a `Put` that
made it with `encrypt`. -/
theorem apply_lookup (c : Call) (s : aesgcmStore) (env : Env) (name : GoString) (blob : Bytes)
    (h : (c.apply s env).store.secrets.lookup name = some blob) :
    s.secrets.lookup name = some blob ∨ EncryptedBy [(env, c)] name blob := by
  cases c with
  | Put key value =>
    simp only [Call.apply] at h
    rcases Put_cases_encrypt s env key value with hs | ⟨mk, b, hk, hv, hg, he, hs⟩
    · rw [hs] at h; exact Or.inl h
    · rw [hs] at h
      by_cases hn : name = key
      · subst hn
        rw [AList.lookup_insert] at h
        injection h with h
        subst h
        exact Or.inr ⟨env, value, mk, by simp, hk, hv, hg, he⟩
      · rw [AList.lookup_insert_ne hn] at h
        exact Or.inl h
  | Get key =>
    simp only [Call.apply, Result.void, Get_store] at h
    exact Or.inl h
  | Delete key =>
    simp only [Call.apply] at h
    rcases Delete_store_cases s env key with hs | hs
    · rw [hs] at h; exact Or.inl h
    · rw [hs] at h
      by_cases hn : name = key
      · subst hn
        rw [AList.lookup_erase] at h
        exact absurd h (by simp)
      · rw [AList.lookup_erase_ne hn] at h
        exact Or.inl h
  | List =>
    simp only [Call.apply, Result.void, List_store] at h
    exact Or.inl h
  | HealthCheck =>
    simp only [Call.apply, HealthCheck_store] at h
    exact Or.inl h

theorem EncryptedBy_mono (calls more : List (Env × Call)) (name : GoString) (blob : Bytes)
    (hsub : ∀ x ∈ calls, x ∈ more) (h : EncryptedBy calls name blob) :
    EncryptedBy more name blob := by
  obtain ⟨env, value, key, hm, rest⟩ := h
  exact ⟨env, value, key, hsub _ hm, rest⟩

/-- A blob found after a sequence of calls was there before, or one of the
calls is a `Put` that made it with `encrypt`. -/
theorem run_lookup (s : aesgcmStore) (calls : List (Env × Call)) (name : GoString)
    (blob : Bytes) (h : (run s calls).store.secrets.lookup name = some blob) :
    s.secrets.lookup name = some blob ∨ EncryptedBy calls name blob := by
  induction calls generalizing s with
  | nil => exact Or.inl h
  | cons ec rest ih =>
    obtain ⟨env, c⟩ := ec
    simp only [run] at h
    rcases ih _ h with h1 | h1
    · rcases apply_lookup c s env name blob h1 with h2 | h2
      · exact Or.inl h2
      · exact Or.inr (EncryptedBy_mono _ _ name blob (by simp) h2)
    · exact Or.inr (EncryptedBy_mono _ _ name blob (fun x hx => List.mem_cons_of_mem _ hx) h1)

theorem run_new_lookup (calls : List (Env × Call)) (name : GoString) (blob : Bytes)
    (h : (run NewAESGCMStore calls).store.secrets.lookup name = some blob) :
    EncryptedBy calls name blob := by
  rcases run_lookup NewAESGCMStore calls name blob h with h1 | h1
  · simp [NewAESGCMStore] at h1
  · exact h1


/-- C17: when the provider's `GetKey` fails, `Put` with a non-empty name and
value, and `Get` of a name stored in a reachable store, return an error that is
`ErrKeyProvider` and whose text ends with the provider's error text, and leave
the secret map as it was. The provider is asked once: what it would answer to
another call does not matter. -/
theorem C17_key_provider_failure (s : aesgcmStore) (env : Env) (calls : List (Env × Call))
    (name : GoString) (value : Bytes) (cause : GoError)
    (hfail : env.keyProvider.GetKey = .error cause) :
    (name ≠ [] → value ≠ [] →
      (s.Put env name value).outcome = .err (fmt.Errorf_w_v ErrKeyProvider cause) ∧
      (s.Put env name value).store = s) ∧
    (name ∈ (run NewAESGCMStore calls).store.secrets →
      ((run NewAESGCMStore calls).store.Get env name).outcome =
        .err (fmt.Errorf_w_v ErrKeyProvider cause) ∧
      ((run NewAESGCMStore calls).store.Get env name).store = (run NewAESGCMStore calls).store) ∧
    (fmt.Errorf_w_v ErrKeyProvider cause).Is .KeyProvider ∧
    cause.msg <:+ (fmt.Errorf_w_v ErrKeyProvider cause).msg := by
  refine ⟨fun hn hv => ?_, fun hmem => ⟨?_, Get_store _ _ _⟩, rfl, Errorf_w_v_suffix _ _⟩
  · have hv2 : ¬ value.length = 0 := by simpa using hv
    simp [aesgcmStore.Put, Result.exit, hn, hv2, hfail]
  · obtain ⟨blob, hb⟩ := Option.isSome_iff_exists.mp (AList.lookup_isSome.mpr hmem)
    obtain ⟨_, _, _, _, hn, _⟩ := run_new_lookup calls name blob hb
    simp [aesgcmStore.Get, Result.exit, hn, hb, hfail]

/-- C17, at a provider that fails the first `GetKey` and would answer a second
one with a key. -/
theorem C17_key_provider_failure_witness :
    flakyEnv.keyProvider.later = [.ok zeroKey] ∧
    (NewAESGCMStore.Put flakyEnv (str "test-key") (str "value")).outcome =
      .err (fmt.Errorf_w_v ErrKeyProvider ⟨str "simulated key provider failure", none⟩) ∧
    (NewAESGCMStore.Put flakyEnv (str "test-key") (str "value")).store = NewAESGCMStore :=
  ⟨rfl, (C17_key_provider_failure NewAESGCMStore flakyEnv [] (str "test-key") (str "value")
    ⟨str "simulated key provider failure", none⟩ rfl).1 (by decide) (by decide)⟩

/-- C19: the audit event of `Put`, `Get` and `Delete` carries the given name,
that of `List` and `HealthCheck` the empty name. Its metadata is, after a `Put`
that returned no error, `size` with the decimal length of the value; after a
`Get` that returned a plaintext, `size` with the decimal length of that
plaintext; after `List`, `count` with the decimal number of names returned; and
empty after any call that did not return without error, as after `Delete` and
`HealthCheck` in every case. -/
theorem C19_event_key_and_metadata (s : aesgcmStore) (env : Env) (name : GoString)
    (value : Bytes) :
    (∃ e, (s.Put env name value).audit = [e] ∧ e.Key = name ∧
      ((s.Put env name value).outcome = .ok () →
        e.Metadata = [(str "size", fmt.Sprintf_d value.length)]) ∧
      ((s.Put env name value).outcome ≠ .ok () → e.Metadata = [])) ∧
    (∃ e, (s.Get env name).audit = [e] ∧ e.Key = name ∧
      (∀ plaintext, (s.Get env name).outcome = .ok plaintext →
        e.Metadata = [(str "size", fmt.Sprintf_d plaintext.length)]) ∧
      ((∀ plaintext, (s.Get env name).outcome ≠ .ok plaintext) → e.Metadata = [])) ∧
    (∃ e, (s.Delete env name).audit = [e] ∧ e.Key = name ∧ e.Metadata = []) ∧
    (∃ e, (s.List env).audit = [e] ∧ e.Key = [] ∧
      ∀ names, (s.List env).outcome = .ok names →
        e.Metadata = [(str "count", fmt.Sprintf_d names.length)]) ∧
    (∃ e, (s.HealthCheck env).audit = [e] ∧ e.Key = [] ∧ e.Metadata = []) ∧
    fmt.Sprintf_d 22 = str "22" := by
  refine ⟨?_, ?_, ?_, ?_, ?_, by decide⟩
  · simp only [aesgcmStore.Put, Result.exit]
    (repeat' split) <;> simp
  · simp only [aesgcmStore.Get, Result.exit]
    (repeat' split) <;> simp
  · simp only [aesgcmStore.Delete, Result.exit]
    (repeat' split) <;> simp
  · simp [aesgcmStore.List, Result.exit]
  · simp only [aesgcmStore.HealthCheck, Result.exit]
    (repeat' split) <;> simp

/-- C20: every blob in the store reached from the new store by any sequence of
calls was made by `encrypt`, in a `Put` of that name among the calls, from a
non-empty value under the key the provider returned; it is 28 bytes longer
than the value, hence at least 29 bytes long and not the value itself. -/
theorem C20_only_encrypted_blobs (calls : List (Env × Call)) (name : GoString) (blob : Bytes)
    (h : (run NewAESGCMStore calls).store.secrets.lookup name = some blob) :
    ∃ env value key, (env, Call.Put name value) ∈ calls ∧ value ≠ [] ∧
      env.keyProvider.GetKey = .ok key ∧
      aesgcmStore.encrypt env.rand key value = .ok blob ∧
      blob.length = value.length + 28 ∧ 29 ≤ blob.length ∧ blob ≠ value := by
  obtain ⟨env, value, key, hm, _, hv, hg, he⟩ := run_new_lookup calls name blob h
  obtain ⟨hk, hr, _, hb⟩ := encrypt_ok_inv env.rand key value blob he
  have hlen : blob.length = value.length + 28 := by
    rw [hb]
    exact sealed_length key _ value hk (by simp [hr])
  have hpos : 0 < value.length := List.length_pos.mpr hv
  refine ⟨env, value, key, hm, hv, hg, he, hlen, by omega, fun heq => ?_⟩
  rw [heq] at hlen
  omega

/-- C20, at the store after the `Put` of `cloudmoor vault test`. -/
theorem C20_only_encrypted_blobs_witness :
    ∃ env value key,
      (env, Call.Put (str "test-secret") value) ∈
        [(zeroEnv, Call.Put (str "test-secret") (str "sensitive-password-123"))] ∧
      value ≠ [] ∧ env.keyProvider.GetKey = .ok key ∧
      aesgcmStore.encrypt env.rand key value =
        .ok (sealed zeroKey (List.replicate 12 0) (str "sensitive-password-123")) ∧
      (sealed zeroKey (List.replicate 12 0) (str "sensitive-password-123")).length =
        value.length + 28 ∧
      29 ≤ (sealed zeroKey (List.replicate 12 0) (str "sensitive-password-123")).length ∧
      sealed zeroKey (List.replicate 12 0) (str "sensitive-password-123") ≠ value :=
  C20_only_encrypted_blobs [(zeroEnv, Call.Put (str "test-secret") (str "sensitive-password-123"))]
    (str "test-secret") _
    (by
      simp only [run, Call.apply]
      rw [Put_ok NewAESGCMStore zeroEnv _ _ zeroKey (by decide) (by decide) rfl (by decide)
        (by decide) (by decide)]
      exact AList.lookup_insert _)

/-! ## The provider registry -/

namespace connectors

theorem RegisterProvider_cases (quote : GoString → GoString) (r : Registry) (c : Connector) :
    ((c.Metadata.ID = [] ∨ c.Metadata.ID ∈ r.registry) ∧
      (RegisterProvider quote r c).1 = r ∧ ∃ m, (RegisterProvider quote r c).2 = .panic m) ∨
    (c.Metadata.ID ≠ [] ∧ c.Metadata.ID ∉ r.registry ∧
      (RegisterProvider quote r c).1 =
        ⟨r.registry.insert c.Metadata.ID c, r.registryOrder ++ [c.Metadata.ID]⟩ ∧
      (RegisterProvider quote r c).2 = .ok ()) := by
  by_cases hid : c.Metadata.ID = []
  · left; simp [RegisterProvider, hid]
  cases hl : r.registry.lookup c.Metadata.ID with
  | some old =>
    left
    refine ⟨Or.inr (AList.lookup_isSome.mp (by simp [hl])), ?_⟩
    simp [RegisterProvider, hid, hl]
  | none =>
    right
    refine ⟨hid, ?_, ?_⟩
    · intro hmem
      have := AList.lookup_isSome.mpr hmem
      simp [hl] at this
    · simp [RegisterProvider, hid, hl]

/-- An ID is in the registry after a run of registrations exactly when it was
there before or one of the connectors carries it and it is not empty. -/
theorem registerAll_mem (quote : GoString → GoString) (r : Registry) (cs : List Connector)
    (id : GoString) :
    id ∈ (registerAll quote r cs).1.registry ↔
      id ∈ r.registry ∨ (id ≠ [] ∧ ∃ c ∈ cs, c.Metadata.ID = id) := by
  induction cs generalizing r with
  | nil => simp [registerAll]
  | cons c rest ih =>
    simp only [registerAll, ih, List.mem_cons, exists_eq_or_imp]
    rcases RegisterProvider_cases quote r c with ⟨hbad, hr, _⟩ | ⟨hid, hnew, hr, _⟩
    · rw [hr]
      constructor
      · rintro (h | ⟨h1, h2⟩)
        · exact Or.inl h
        · exact Or.inr ⟨h1, Or.inr h2⟩
      · rintro (h | ⟨h1, h2 | h2⟩)
        · exact Or.inl h
        · rcases hbad with hbad | hbad
          · exact absurd (h2 ▸ hbad) h1
          · exact Or.inl (h2 ▸ hbad)
        · exact Or.inr ⟨h1, h2⟩
    · rw [hr]
      simp only [AList.mem_insert]
      constructor
      · rintro ((h | h) | ⟨h1, h2⟩)
        · exact Or.inr ⟨h ▸ hid, Or.inl h.symm⟩
        · exact Or.inl h
        · exact Or.inr ⟨h1, Or.inr h2⟩
      · rintro (h | ⟨h1, h2 | h2⟩)
        · exact Or.inl (Or.inr h)
        · exact Or.inl (Or.inl h2.symm)
        · exact Or.inr ⟨h1, h2⟩

/-- C22: `RegisterProvider` panics exactly when the ID of the connector's
metadata is empty or already in the registry, and then the registry and its
order are as before; otherwise it returns, `GetProvider` of that ID returns the
connector and the ID is appended to the order. After any registrations from
the empty registry, `GetProvider` returns nil exactly for the IDs that are
empty or that no connector of the calls carries. -/
theorem C22_register_provider (quote : GoString → GoString) (r : Registry) (c : Connector)
    (cs : List Connector) (id : GoString) :
    ((∃ m, (RegisterProvider quote r c).2 = .panic m) ↔
      c.Metadata.ID = [] ∨ c.Metadata.ID ∈ r.registry) ∧
    ((∃ m, (RegisterProvider quote r c).2 = .panic m) → (RegisterProvider quote r c).1 = r) ∧
    ((¬ ∃ m, (RegisterProvider quote r c).2 = .panic m) →
      (RegisterProvider quote r c).2 = .ok () ∧
      GetProvider (RegisterProvider quote r c).1 c.Metadata.ID = some c ∧
      (RegisterProvider quote r c).1.registryOrder = r.registryOrder ++ [c.Metadata.ID]) ∧
    (GetProvider (registerAll quote .empty cs).1 id = none ↔
      id = [] ∨ ∀ c ∈ cs, c.Metadata.ID ≠ id) := by
  refine ⟨?_, ?_, ?_, ?_⟩
  · rcases RegisterProvider_cases quote r c with ⟨hbad, _, hp⟩ | ⟨hid, hnew, _, hok⟩
    · exact ⟨fun _ => hbad, fun _ => hp⟩
    · constructor
      · rintro ⟨m, hm⟩
        rw [hok] at hm
        exact absurd hm (by simp)
      · rintro (h | h)
        · exact absurd h hid
        · exact absurd h hnew
  · rintro ⟨m, hm⟩
    rcases RegisterProvider_cases quote r c with ⟨_, hr, _⟩ | ⟨_, _, _, hok⟩
    · exact hr
    · rw [hok] at hm
      exact absurd hm (by simp)
  · intro hno
    rcases RegisterProvider_cases quote r c with ⟨_, _, hp⟩ | ⟨_, _, hr, hok⟩
    · exact absurd hp hno
    · rw [hr]
      exact ⟨hok, AList.lookup_insert _, rfl⟩
  · have hmem := registerAll_mem quote .empty cs id
    unfold GetProvider
    rw [← not_iff_not, ← ne_eq, Option.ne_none_iff_isSome, AList.lookup_isSome, hmem]
    simp only [Registry.empty, AList.not_mem_empty, false_or, not_or, not_forall, not_not,
      ne_eq]
    constructor
    · rintro ⟨h1, c, hc, h2⟩
      exact ⟨h1, c, hc, h2⟩
    · rintro ⟨h1, c, hc, h2⟩
      exact ⟨h1, c, hc, h2⟩

/-- C22, at the duplicate registration of `registry_test.go`: the second call
with the ID `duplicate` panics and changes nothing. -/
theorem C22_register_provider_witness :
    (RegisterProvider plainQuote
        (RegisterProvider plainQuote .empty (fakeConnector "duplicate" "" "" 1)).1
        (fakeConnector "duplicate" "" "" 1)).1 =
      (RegisterProvider plainQuote .empty (fakeConnector "duplicate" "" "" 1)).1 :=
  (C22_register_provider plainQuote
    (RegisterProvider plainQuote .empty (fakeConnector "duplicate" "" "" 1)).1
    (fakeConnector "duplicate" "" "" 1) [] []).2.1 ⟨_, rfl⟩

end connectors

namespace connectors

theorem ListProviders_register (quote : GoString → GoString) (r : Registry) (c : Connector)
    (hr : r.Listed) (hok : (RegisterProvider quote r c).2 = .ok ()) :
    (RegisterProvider quote r c).1.Listed ∧
    ListProviders (RegisterProvider quote r c).1 = ListProviders r ++ [c.Metadata] := by
  rcases RegisterProvider_cases quote r c with ⟨_, _, m, hp⟩ | ⟨hid, hnew, hst, _⟩
  · rw [hok] at hp
    exact absurd hp (by simp)
  rw [hst]
  constructor
  · intro id hmem
    simp only [List.mem_append, List.mem_singleton] at hmem
    rcases hmem with h | h
    · exact (AList.mem_insert _).mpr (Or.inr (hr id h))
    · exact (AList.mem_insert _).mpr (Or.inl h)
  · simp only [ListProviders, List.filterMap_append, List.filterMap_cons, List.filterMap_nil,
      AList.lookup_insert]
    congr 1
    apply List.filterMap_congr
    intro id hmem
    have hne : id ≠ c.Metadata.ID := fun h => hnew (h ▸ hr id hmem)
    rw [AList.lookup_insert_ne hne]

theorem ListProviders_registerAll (quote : GoString → GoString) (r : Registry)
    (cs : List Connector) (hr : r.Listed)
    (hok : ∀ o ∈ (registerAll quote r cs).2, o = .ok ()) :
    ListProviders (registerAll quote r cs).1 = ListProviders r ++ cs.map (·.Metadata) := by
  induction cs generalizing r with
  | nil => simp [registerAll]
  | cons c rest ih =>
    simp only [registerAll, List.mem_cons, forall_eq_or_imp] at hok ⊢
    obtain ⟨hl, heq⟩ := ListProviders_register quote r c hr hok.1
    rw [ih _ hl hok.2, heq]
    simp

/-- C23: when every call of a sequence of `RegisterProvider` calls from the
empty registry returns, `ListProviders` returns the metadata of the registered
connectors, one entry for each, in the order of the calls; for s3, webdav,
dropbox that is the order s3, webdav, dropbox, which is not the sorted one. -/
theorem C23_list_providers (quote : GoString → GoString) (cs : List Connector)
    (hok : ∀ o ∈ (registerAll quote .empty cs).2, o = .ok ()) :
    ListProviders (registerAll quote .empty cs).1 = cs.map (·.Metadata) ∧
    (ListProviders (registerAll quote .empty threeProviders).1).map (·.ID) =
      [str "s3", str "webdav", str "dropbox"] ∧
    ProviderIDs (registerAll quote .empty threeProviders).1 =
      [str "dropbox", str "s3", str "webdav"] := by
  refine ⟨?_, ?_, ?_⟩
  · have h := ListProviders_registerAll quote .empty cs (fun _ h => by cases h) hok
    simpa [ListProviders, Registry.empty] using h
  · rfl
  · rfl

/-- C23, at the three registrations of `TestListProviders`. -/
theorem C23_list_providers_witness :
    ListProviders (registerAll plainQuote .empty threeProviders).1 =
      threeProviders.map (·.Metadata) :=
  (C23_list_providers plainQuote threeProviders (by decide)).1

end connectors

/-! ## `decrypt` on every input -/

theorem decrypt_short (key blob : Bytes) (hk : aes.KeyLength key) (hb : blob.length < 12) :
    aesgcmStore.decrypt key blob = .err (fmt.Errorf "ciphertext too short") := by
  simp [aesgcmStore.decrypt, NewCipher_eq key hk, cipher.NewGCM, cipher.GCM.NonceSize, hb]

theorem decrypt_split (key blob : Bytes) (hk : aes.KeyLength key) (hb : 12 ≤ blob.length) :
    aesgcmStore.decrypt key blob = (gcmOf key).Open [] (blob.take 12) (blob.drop 12) [] := by
  simp [aesgcmStore.decrypt, NewCipher_eq key hk, cipher.NewGCM, cipher.GCM.NonceSize,
    Nat.not_lt.mpr hb, gcmOf]

theorem Open_total (g : cipher.GCM) (dst nonce ciphertext data : Bytes) (hn : nonce.length = 12) :
    (∃ pt, g.Open dst nonce ciphertext data = .ok pt) ∨
      ∃ e, g.Open dst nonce ciphertext data = .err e := by
  unfold cipher.GCM.Open
  simp only [cipher.GCM.NonceSize, hn, ne_eq, not_true_eq_false, if_false]
  split_ifs <;> simp

/-- C24, counterexample: under a key of 31 bytes the 3-byte blob `1, 2, 3` is
refused with the key-size error of `aes.NewCipher`, which is not the error
`ciphertext too short`. -/
theorem C24_counterexample :
    ([1, 2, 3] : Bytes).length < 12 ∧
    aesgcmStore.decrypt (List.replicate 31 0) [1, 2, 3] = .err (aes.KeySizeError 31) ∧
    aesgcmStore.decrypt (List.replicate 31 0) [1, 2, 3] ≠
      .err (fmt.Errorf "ciphertext too short") := by
  refine ⟨by decide, ?_, ?_⟩
  · rw [aesgcmStore.decrypt, NewCipher_error _ (by decide)]
    rfl
  · rw [aesgcmStore.decrypt, NewCipher_error _ (by decide)]
    decide

/-- C24 (amended): for every key and every blob `decrypt` returns a plaintext
or an error and does not panic. Under a key whose length is not 16, 24 or 32
the error is the key-size error of `aes.NewCipher`, whatever the blob. Under a
key of such a length a blob shorter than 12 bytes gives the error
`ciphertext too short`, and a blob of 12 bytes or more is split at offset 12,
which is inside it: the nonce has 12 bytes and the two parts make up the blob. -/
theorem C24_decrypt_total (key blob : Bytes) :
    ((∃ pt, aesgcmStore.decrypt key blob = .ok pt) ∨
      ∃ e, aesgcmStore.decrypt key blob = .err e) ∧
    (¬ aes.KeyLength key → aesgcmStore.decrypt key blob = .err (aes.KeySizeError key.length)) ∧
    (aes.KeyLength key → blob.length < 12 →
      aesgcmStore.decrypt key blob = .err (fmt.Errorf "ciphertext too short")) ∧
    (aes.KeyLength key → 12 ≤ blob.length →
      (blob.take 12).length = 12 ∧ blob.take 12 ++ blob.drop 12 = blob ∧
      aesgcmStore.decrypt key blob = (gcmOf key).Open [] (blob.take 12) (blob.drop 12) []) := by
  have hbad : ¬ aes.KeyLength key →
      aesgcmStore.decrypt key blob = .err (aes.KeySizeError key.length) := by
    intro hk
    simp [aesgcmStore.decrypt, NewCipher_error key hk]
  refine ⟨?_, hbad, decrypt_short key blob, fun hk hb => ?_⟩
  · by_cases hk : aes.KeyLength key
    · by_cases hb : blob.length < 12
      · exact Or.inr ⟨_, decrypt_short key blob hk hb⟩
      · rw [decrypt_split key blob hk (by omega)]
        exact Open_total _ _ _ _ _ (by simp; omega)
    · exact Or.inr ⟨_, hbad hk⟩
  · exact ⟨by simp [hb], List.take_append_drop 12 blob, decrypt_split key blob hk hb⟩

/-! ## Overwriting a secret -/

/-- Inserting under a name that is stored leaves the sorted list of names as it
was. -/
theorem Strings_keys_insert (m : AList (fun _ : GoString => Bytes)) (name : GoString)
    (blob : Bytes) (h : name ∈ m) :
    sort.Strings (m.insert name blob).keys = sort.Strings m.keys := by
  apply List.eq_of_perm_of_sorted (r := (· ≤ ·)) _ (Strings_sorted _) (Strings_sorted _)
  refine (Strings_perm _).trans (List.Perm.trans ?_ (Strings_perm _).symm)
  rw [AList.keys_insert]
  exact (List.perm_cons_erase (AList.mem_keys.mp h)).symm

theorem count_of_nodup {α : Type} [BEq α] [LawfulBEq α] (a : α) (l : List α) (hd : l.Nodup)
    (hm : a ∈ l) : l.count a = 1 := by
  induction l with
  | nil => cases hm
  | cons b t ih =>
    rw [List.nodup_cons] at hd
    rw [List.count_cons]
    by_cases hb : b = a
    · subst hb
      simp [List.count_eq_zero_of_not_mem hd.1]
    · have ht : a ∈ t := by
        rcases List.mem_cons.mp hm with h | h
        · exact absurd h.symm hb
        · exact h
      simp [ih hd.2 ht, hb]

/-- C25: when `Put(name, v1)` and then `Put(name, v2)` both return no error
and the provider gives the second `Put` and the following `Get` the same key,
`Get(name)` returns `v2`, `List` returns the name exactly once, and `List`
returns after the second `Put` the very list it returns after the first. -/
theorem C25_put_overwrites (s : aesgcmStore) (env1 env2 envGet envList : Env) (name : GoString)
    (v1 v2 masterKey : Bytes)
    (h1 : (s.Put env1 name v1).outcome = .ok ())
    (h2 : ((s.Put env1 name v1).store.Put env2 name v2).outcome = .ok ())
    (hput : env2.keyProvider.GetKey = .ok masterKey)
    (hget : envGet.keyProvider.GetKey = .ok masterKey) :
    ((putTwice s env1 env2 name v1 v2).Get envGet name).outcome = .ok v2 ∧
    (∃ names, ((putTwice s env1 env2 name v1 v2).List envList).outcome = .ok names ∧
      names.count name = 1 ∧
      ((s.Put env1 name v1).store.List envList).outcome = .ok names) := by
  obtain ⟨b1, hs1⟩ := Put_store_of_ok s env1 name v1 h1
  have hmem : name ∈ (s.Put env1 name v1).store.secrets := by
    rw [hs1]
    exact (AList.mem_insert _).mpr (Or.inl rfl)
  have hname : name ≠ [] := by
    intro hkey
    simp [aesgcmStore.Put, Result.exit, hkey] at h2
  have hv : ¬ v2.length = 0 := by
    intro hv
    simp [aesgcmStore.Put, Result.exit, hname, hv] at h2
  cases he : aesgcmStore.encrypt env2.rand masterKey v2 with
  | err e => simp [aesgcmStore.Put, Result.exit, hname, hv, hput, he] at h2
  | panic m => simp [aesgcmStore.Put, Result.exit, hname, hv, hput, he] at h2
  | ok b2 =>
    have hs2 := Put_eq_of_encrypt (s.Put env1 name v1).store env2 name v2 masterKey b2 hname
      (by intro h; exact hv (by simp [h])) hput he
    obtain ⟨hk, hr, hpt, hblob⟩ := encrypt_ok_inv _ _ _ _ he
    have hn : (env2.rand.data.take 12).length = 12 := by simp [hr]
    unfold putTwice
    rw [hs2]
    simp only [Result.exit]
    refine ⟨?_, sort.Strings (AList.insert name b2 (s.Put env1 name v1).store.secrets).keys,
      rfl, ?_, ?_⟩
    · rw [Get_eq_of_decrypt ⟨AList.insert name b2 _⟩ envGet name b2 masterKey hname
        (AList.lookup_insert _) hget, hblob, decrypt_sealed masterKey _ v2 hk hn hpt]
      rfl
    · exact count_of_nodup _ _ ((Strings_perm _).nodup_iff.mpr (AList.keys_nodup _))
        ((Strings_perm _).mem_iff.mpr
          (AList.mem_keys.mpr ((AList.mem_insert _).mpr (Or.inl rfl))))
    · rw [Strings_keys_insert _ name b2 hmem]
      rfl

/-- C25, at the name `k` put twice into the empty store, first with the value
`old`, then with the value `new`. -/
theorem C25_put_overwrites_witness :
    ((putTwice NewAESGCMStore zeroEnv zeroEnv (str "k") (str "old") (str "new")).Get zeroEnv
      (str "k")).outcome = .ok (str "new") :=
  (C25_put_overwrites NewAESGCMStore zeroEnv zeroEnv zeroEnv zeroEnv (str "k") (str "old")
    (str "new") zeroKey (by decide) (by decide) rfl rfl).1

/-! ## Failing calls and reading calls -/

/-- The errors `Put` returns. -/
theorem Put_error_kinds (s : aesgcmStore) (env : Env) (key : GoString) (value : Bytes)
    (e : GoError) (h : (s.Put env key value).outcome = .err e) :
    (key = [] ∧ e = ErrKeyEmpty) ∨ (value = [] ∧ e = ErrValueEmpty) ∨ e.Is .KeyProvider ∨
      e.Is .Encryption := by
  by_cases hk : key = []
  · left
    simp [aesgcmStore.Put, Result.exit, hk] at h
    exact ⟨hk, h.symm⟩
  by_cases hv : value.length = 0
  · right; left
    simp [aesgcmStore.Put, Result.exit, hk, hv] at h
    exact ⟨List.length_eq_zero.mp hv, h.symm⟩
  cases hg : env.keyProvider.GetKey with
  | error err =>
    right; right; left
    simp [aesgcmStore.Put, Result.exit, hk, hv, hg] at h
    rw [← h]
    rfl
  | ok masterKey =>
    right; right; right
    cases he : aesgcmStore.encrypt env.rand masterKey value with
    | err err =>
      simp [aesgcmStore.Put, Result.exit, hk, hv, hg, he] at h
      rw [← h]
      rfl
    | panic m => simp [aesgcmStore.Put, Result.exit, hk, hv, hg, he] at h
    | ok blob => simp [aesgcmStore.Put, Result.exit, hk, hv, hg, he] at h

/-- The errors `Delete` returns. -/
theorem Delete_error_kinds (s : aesgcmStore) (env : Env) (key : GoString) (e : GoError)
    (h : (s.Delete env key).outcome = .err e) :
    (key = [] ∧ e = ErrKeyEmpty) ∨ (key ≠ [] ∧ key ∉ s.secrets ∧ e = ErrNotFound) := by
  by_cases hk : key = []
  · left
    simp [aesgcmStore.Delete, Result.exit, hk] at h
    exact ⟨hk, h.symm⟩
  right
  cases hl : s.secrets.lookup key with
  | none =>
    simp [aesgcmStore.Delete, Result.exit, hk, hl] at h
    exact ⟨hk, AList.lookup_eq_none.mp hl, h.symm⟩
  | some blob => simp [aesgcmStore.Delete, Result.exit, hk, hl] at h

/-- C26: a `Put` that returns an error returns `ErrKeyEmpty`, `ErrValueEmpty`
or an error that wraps `ErrKeyProvider` or `ErrEncryption`, and leaves the
secret map as it was; a `Delete` that returns an error returns `ErrKeyEmpty`
(empty name) or `ErrNotFound` (absent name) and leaves the map as it was;
`Get`, `List` and `HealthCheck` leave the map as it was whether they fail or
succeed. -/
theorem C26_failure_leaves_collection (s : aesgcmStore) (env : Env) (key : GoString)
    (value : Bytes) :
    (∀ e, (s.Put env key value).outcome = .err e →
      (s.Put env key value).store = s ∧
      ((key = [] ∧ e = ErrKeyEmpty) ∨ (value = [] ∧ e = ErrValueEmpty) ∨ e.Is .KeyProvider ∨
        e.Is .Encryption)) ∧
    (∀ e, (s.Delete env key).outcome = .err e →
      (s.Delete env key).store = s ∧
      ((key = [] ∧ e = ErrKeyEmpty) ∨ (key ≠ [] ∧ key ∉ s.secrets ∧ e = ErrNotFound))) ∧
    (s.Get env key).store = s ∧ (s.List env).store = s ∧ (s.HealthCheck env).store = s := by
  refine ⟨fun e h => ⟨?_, Put_error_kinds s env key value e h⟩,
    fun e h => ⟨?_, Delete_error_kinds s env key e h⟩,
    Get_store s env key, List_store s env, HealthCheck_store s env⟩
  · exact Put_store_of_not_ok s env key value (by rw [h]; simp)
  · exact Delete_store_of_not_ok s env key (by rw [h]; simp)

/-- C26, at the `Delete` of the name `non-existent` of `vault_test.go` on a
store that holds another name. -/
theorem C26_failure_leaves_collection_witness :
    ((⟨(∅ : AList fun _ : GoString => Bytes).insert (str "kept") (List.replicate 29 7)⟩ :
        aesgcmStore).Delete zeroEnv (str "non-existent")).store =
      ⟨(∅ : AList fun _ : GoString => Bytes).insert (str "kept") (List.replicate 29 7)⟩ :=
  ((C26_failure_leaves_collection
    ⟨(∅ : AList fun _ : GoString => Bytes).insert (str "kept") (List.replicate 29 7)⟩ zeroEnv
    (str "non-existent") []).2.1 ErrNotFound (by decide)).1

/-! ## Other names -/

/-- What `Get` returns and reports depends on the secret map only through the
entry of the name. -/
theorem Get_congr (s t : aesgcmStore) (env : Env) (key : GoString)
    (h : s.secrets.lookup key = t.secrets.lookup key) :
    (s.Get env key).outcome = (t.Get env key).outcome ∧
      (s.Get env key).audit = (t.Get env key).audit := by
  by_cases hk : key = []
  · simp [aesgcmStore.Get, Result.exit, hk]
  cases hl : t.secrets.lookup key with
  | none =>
    rw [hl] at h
    simp [aesgcmStore.Get, Result.exit, hk, hl, h]
  | some blob =>
    rw [hl] at h
    cases hg : env.keyProvider.GetKey with
    | error err => simp [aesgcmStore.Get, Result.exit, hk, hl, h, hg]
    | ok masterKey =>
      rw [Get_eq_of_decrypt s env key blob masterKey hk h hg,
        Get_eq_of_decrypt t env key blob masterKey hk hl hg]
      cases aesgcmStore.decrypt masterKey blob <;> simp [Result.exit]

/-- C27: for names `n ≠ m`, a `Put(n, v)` and a `Delete(n)`, whether they
succeed or fail, leave the entry of `m` in the secret map (a blob or none) as
it was, and `Get(m)` returns and reports after either call what it returns and
reports before it, under any one key provider. -/
theorem C27_frame (s : aesgcmStore) (env envGet : Env) (n m : GoString) (v : Bytes)
    (hne : n ≠ m) :
    (s.Put env n v).store.secrets.lookup m = s.secrets.lookup m ∧
    (s.Delete env n).store.secrets.lookup m = s.secrets.lookup m ∧
    ((s.Put env n v).store.Get envGet m).outcome = (s.Get envGet m).outcome ∧
    ((s.Put env n v).store.Get envGet m).audit = (s.Get envGet m).audit ∧
    ((s.Delete env n).store.Get envGet m).outcome = (s.Get envGet m).outcome ∧
    ((s.Delete env n).store.Get envGet m).audit = (s.Get envGet m).audit := by
  have hp : (s.Put env n v).store.secrets.lookup m = s.secrets.lookup m := by
    rcases Put_cases s env n v with ⟨h, _⟩ | ⟨blob, h, _⟩
    · rw [h]
    · rw [h]
      exact AList.lookup_insert_ne (Ne.symm hne)
  have hd : (s.Delete env n).store.secrets.lookup m = s.secrets.lookup m := by
    rcases Delete_store_cases s env n with h | h
    · rw [h]
    · rw [h]
      exact AList.lookup_erase_ne (Ne.symm hne)
  exact ⟨hp, hd, (Get_congr _ s envGet m hp).1, (Get_congr _ s envGet m hp).2,
    (Get_congr _ s envGet m hd).1, (Get_congr _ s envGet m hd).2⟩

/-- C27, at a successful `Put` of the name `other` into a store that holds the
name `kept`. -/
theorem C27_frame_witness :
    str "other" ≠ str "kept" ∧
    (((⟨(∅ : AList fun _ : GoString => Bytes).insert (str "kept") (List.replicate 29 7)⟩ :
        aesgcmStore).Put zeroEnv (str "other") [1]).store.secrets.lookup (str "kept")) =
      some (List.replicate 29 7) :=
  ⟨by decide,
   (C27_frame ⟨(∅ : AList fun _ : GoString => Bytes).insert (str "kept") (List.replicate 29 7)⟩
     zeroEnv zeroEnv (str "other") (str "kept") [1] (by decide)).1.trans (by decide)⟩

/-! ## What the audit event of `Put` depends on -/

/-- The event of a `Put` under a 32-byte key: settled by the name, the clock
reading, the length of the value and whether the random source delivers. -/
theorem Put_audit_eq (s : aesgcmStore) (env : Env) (name : GoString) (value masterKey : Bytes)
    (hname : name ≠ []) (hv : value ≠ []) (hg : env.keyProvider.GetKey = .ok masterKey)
    (hk : masterKey.length = 32) :
    (s.Put env name value).audit =
      if 12 ≤ env.rand.data.length then
        if value.length ≤ cipher.gcmMaxPlaintext then
          [⟨env.now, str "put", name, true, [], [(str "size", fmt.Sprintf_d value.length)]⟩]
        else [⟨env.now, str "put", name, false, [], []⟩]
      else [⟨env.now, str "put", name, false, fmt.Sprintf_v_v ErrEncryption env.rand.err, []⟩] := by
  have hkl : aes.KeyLength masterKey := Or.inr (Or.inr hk)
  have hv2 : ¬ value.length = 0 := by simpa using hv
  by_cases hr : 12 ≤ env.rand.data.length
  · by_cases hpt : value.length ≤ cipher.gcmMaxPlaintext
    · rw [Put_ok s env name value masterKey hname hv hg hkl hr hpt]
      simp [Result.exit, hr, hpt]
    · rw [Put_panic s env name value masterKey hname hg hkl hr (by omega)]
      simp [Result.exit, hr, hpt]
  · simp [aesgcmStore.Put, Result.exit, hname, hv2, hg, encrypt_rand_error _ _ _ hkl hr, hr]

/-- C28: two runs of `Put` on the same store with the same name and clock
reading, with two non-empty values of one length and providers that return any
two 32-byte keys, report the same audit events, when the random sources of the
two runs both deliver a nonce (not needfully the same one) or are the same
source. -/
theorem C28_audit_hides_value_and_key (s : aesgcmStore) (name : GoString) (now : Time)
    (provider1 provider2 : KeyProvider) (rand1 rand2 : Reader) (key1 key2 v1 v2 : Bytes)
    (hg1 : provider1.GetKey = .ok key1) (hg2 : provider2.GetKey = .ok key2)
    (hk1 : key1.length = 32) (hk2 : key2.length = 32)
    (hv1 : v1 ≠ []) (hv2 : v2 ≠ []) (hlen : v1.length = v2.length)
    (hrand : (12 ≤ rand1.data.length ∧ 12 ≤ rand2.data.length) ∨ rand1 = rand2) :
    (s.Put ⟨now, provider1, rand1⟩ name v1).audit =
      (s.Put ⟨now, provider2, rand2⟩ name v2).audit := by
  by_cases hname : name = []
  · simp [aesgcmStore.Put, Result.exit, hname]
  rw [Put_audit_eq s ⟨now, provider1, rand1⟩ name v1 key1 hname hv1 hg1 hk1,
    Put_audit_eq s ⟨now, provider2, rand2⟩ name v2 key2 hname hv2 hg2 hk2, hlen]
  rcases hrand with ⟨h1, h2⟩ | h
  · simp [h1, h2]
  · rw [h]

/-- C28, at the values `alpha` and `omega` under the all-zero key and the key
0, 1, …, 31, with nonces of zeros and of 0, 1, …, 11. -/
theorem C28_audit_hides_value_and_key_witness :
    (NewAESGCMStore.Put ⟨1700000000, holding zeroKey, zeroReader⟩ (str "name")
        (str "alpha")).audit =
      (NewAESGCMStore.Put ⟨1700000000, holding countingKey, countingReader⟩ (str "name")
        (str "omega")).audit :=
  C28_audit_hides_value_and_key NewAESGCMStore (str "name") 1700000000 (holding zeroKey)
    (holding countingKey) zeroReader countingReader zeroKey countingKey (str "alpha")
    (str "omega") rfl rfl (by decide) (by decide) (by decide) (by decide) (by decide)
    (Or.inl (by decide))

end CloudMoor
